import Mathlib

/-! # Chat broker (`labs/lab02/backend/chatcore/chatcore.go`)

A shallow embedding of the broker's registry, mailboxes and routing step.

* A Go `chan Message` is a reference.  The channels reachable from the broker
  live in a store `chans : Nat → Chan`; a handle is `none` (the nil channel) or
  `some r` (a reference to `chans r`).  Two identities may hold the same handle.
* A Go map is a partial function `String → Option Handle`.  The order in which
  `range` visits the keys is not specified by the language, so the broadcast
  loop takes the visiting order as an argument.
* The model is sequential: no receiver is parked on a mailbox while the broker
  writes to it, so a non-blocking send succeeds exactly when the buffer has
  room.  Run-time panics are results of type `Except Panic _`.
-/

namespace Chatcore

/-- Go struct `Message`.  `Timestamp` is an `int64`; no arithmetic is done on it. -/
structure Message where
  Sender : String
  Recipient : String
  Content : String
  Broadcast : Bool
  Timestamp : Int
deriving DecidableEq, Repr

/-- State of one buffered Go channel of messages: pending items (oldest first),
capacity, and whether `close` has been called on it. -/
structure Chan where
  buf : List Message
  cap : Nat
  closed : Bool
deriving DecidableEq, Repr

/-- A value of Go type `chan Message`: `none` is the nil channel. -/
abbrev Handle := Option Nat

/-- The error `ctx.Err()` reports once the context is done. -/
inductive CtxErr where
  | Canceled
  | DeadlineExceeded
deriving DecidableEq, Repr

/-- Run-time panics the channel operations of the broker can raise. -/
inductive Panic where
  | sendOnClosedChannel
  | closeOfNilChannel
deriving DecidableEq, Repr

/-- Go struct `Broker` together with the channels its registry refers to.
`ctx = none` while the context is live, `some e` once `ctx.Done()` has fired
(then `ctx.Err() = e`).  `input` is the buffered input channel, oldest first.
`done = true` once the `done` channel has been closed. -/
structure Broker where
  ctx : Option CtxErr
  input : List Message
  users : String → Option Handle
  done : Bool
  chans : Nat → Chan

/-- Capacity of the input channel: `make(chan Message, 100)` in `NewBroker`. -/
def inputCap : Nat := 100

/-- Go `NewBroker`: empty input queue, empty registry, `done` not closed. -/
def NewBroker (ctx : Option CtxErr) (chans : Nat → Chan) : Broker :=
  { ctx := ctx, input := [], users := fun _ => none, done := false, chans := chans }

/-- The statement `select { case userChan <- msg: default: }`.
A nil channel is never ready, so the default arm runs.  A send on a closed
channel panics.  Otherwise the message is buffered when there is room and
dropped when there is none. -/
def trySend (chans : Nat → Chan) (h : Handle) (msg : Message) : Except Panic (Nat → Chan) :=
  match h with
  | none => .ok chans
  | some r =>
    if (chans r).closed then .error .sendOnClosedChannel
    else if (chans r).buf.length < (chans r).cap then
      .ok (Function.update chans r { chans r with buf := (chans r).buf ++ [msg] })
    else .ok chans

/-- The `for id, userChan := range b.users` loop of `broadcastMessage`, visiting
the keys in the given order. -/
def broadcastLoop (users : String → Option Handle) (msg : Message) :
    List String → (Nat → Chan) → Except Panic (Nat → Chan)
  | [], chans => .ok chans
  | id :: rest, chans =>
    match users id with
    | none => broadcastLoop users msg rest chans
    | some h =>
      match trySend chans h msg with
      | .ok chans1 => broadcastLoop users msg rest chans1
      | .error p => .error p

/-- Go `broadcastMessage`. -/
def broadcastMessage (b : Broker) (order : List String) (msg : Message) : Except Panic Broker :=
  match broadcastLoop b.users msg order b.chans with
  | .ok chans1 => .ok { b with chans := chans1 }
  | .error p => .error p

/-- Go `sendPrivateMessage`. -/
def sendPrivateMessage (b : Broker) (msg : Message) : Except Panic Broker :=
  match b.users msg.Recipient with
  | some h =>
    match trySend b.chans h msg with
    | .ok chans1 => .ok { b with chans := chans1 }
    | .error p => .error p
  | none => .ok b

/-- The timestamp assignment at the head of the receive arm of `Run`:
`if msg.Timestamp == 0 { msg.Timestamp = time.Now().UnixNano() }`. -/
def stamp (msg : Message) (now : Int) : Message :=
  if msg.Timestamp = 0 then { msg with Timestamp := now } else msg

/-- The body of the `case msg := <-b.input` arm of `Run`, for a message already
taken from the queue; `now` is the reading of `time.Now().UnixNano()`. -/
def dispatch (b : Broker) (msg : Message) (now : Int) (order : List String) :
    Except Panic Broker :=
  if (stamp msg now).Broadcast then broadcastMessage b order (stamp msg now)
  else sendPrivateMessage b (stamp msg now)

/-- The channels as the `range` loop of `broadcastMessage` leaves them when it
stops: at the end of the traversal, or at the first send that panics.  The sends
made before a panic have taken place. -/
def broadcastReached (users : String → Option Handle) (msg : Message) :
    List String → (Nat → Chan) → (Nat → Chan)
  | [], chans => chans
  | id :: rest, chans =>
    match users id with
    | none => broadcastReached users msg rest chans
    | some h =>
      match trySend chans h msg with
      | .ok chans1 => broadcastReached users msg rest chans1
      | .error _ => chans

/-- The channels as a dispatch step that panics leaves them.  `sendPrivateMessage`
makes a single send, so a panic there finds every channel as it was. -/
def chansAtPanic (b : Broker) (msg : Message) (order : List String) : Nat → Chan :=
  if msg.Broadcast then broadcastReached b.users msg order b.chans else b.chans

/-- Result of one pass through the `select` of `Run`.  A pass that panics leaves
`Run` through its deferred call, so it also has a state afterwards. -/
inductive RunOutcome where
  | continued (b : Broker)
  | exited (b : Broker)
  | waiting
  | panicked (p : Panic) (b : Broker)

/-- The broker after a pass of `Run` whose dispatch step has panicked: the message
is off the queue, the sends made before the panic have taken place, and
`defer close(b.done)` has run while the panic leaves `Run`. -/
def afterPanic (b : Broker) (msg : Message) (now : Int) (order : List String) : Broker :=
  { b with chans := chansAtPanic b (stamp msg now) order, done := true }

/-- One pass through the `for { select { ... } }` of `Run`.  When both arms are
ready the runtime chooses one; `pick = true` is the receive arm.  `Run` starts
with `defer close(b.done)`, which runs when the loop returns and also when a
dispatch step panics. -/
def RunStep (b : Broker) (now : Int) (order : List String) (pick : Bool) : RunOutcome :=
  match b.input, b.ctx with
  | [], none => .waiting
  | [], some _ => .exited { b with done := true }
  | msg :: rest, none =>
    match dispatch { b with input := rest } msg now order with
    | .ok b1 => .continued b1
    | .error p => .panicked p (afterPanic { b with input := rest } msg now order)
  | msg :: rest, some _ =>
    if pick then
      match dispatch { b with input := rest } msg now order with
      | .ok b1 => .continued b1
      | .error p => .panicked p (afterPanic { b with input := rest } msg now order)
    else .exited { b with done := true }

/-- Result of a call of `SendMessage`. -/
inductive SendOutcome where
  | returned (err : Option CtxErr) (b : Broker)
  | blocked

/-- Go `SendMessage`.  When both arms of the `select` are ready the runtime
chooses one; `pick = true` is the send arm.  When neither is ready the caller
stays suspended. -/
def SendMessage (b : Broker) (msg : Message) (pick : Bool) : SendOutcome :=
  match decide (b.input.length < inputCap), b.ctx with
  | true, none => .returned none { b with input := b.input ++ [msg] }
  | true, some e =>
    if pick then .returned none { b with input := b.input ++ [msg] }
    else .returned (some e) b
  | false, some e => .returned (some e) b
  | false, none => .blocked

/-- Go `RegisterUser`: `b.users[userID] = recv`. -/
def RegisterUser (b : Broker) (userID : String) (recv : Handle) : Broker :=
  { b with users := Function.update b.users userID (some recv) }

/-- The statement `select { case <-ch: default: close(ch) }` of `UnregisterUser`.
A nil channel is never ready, so `close(nil)` runs and panics.  A channel with a
buffered message is ready to be received from, open or closed: the oldest
message is taken and discarded.  A closed channel with nothing buffered is
ready and yields the zero value.  An open channel with nothing buffered is not
ready, so it is closed. -/
def closeUnlessReady (chans : Nat → Chan) (h : Handle) : Except Panic (Nat → Chan) :=
  match h with
  | none => .error .closeOfNilChannel
  | some r =>
    match (chans r).buf with
    | _ :: rest => .ok (Function.update chans r { chans r with buf := rest })
    | [] =>
      if (chans r).closed then .ok chans
      else .ok (Function.update chans r { chans r with closed := true })

/-- Go `UnregisterUser`; `delete(b.users, userID)` makes the key absent. -/
def UnregisterUser (b : Broker) (userID : String) : Except Panic Broker :=
  match b.users userID with
  | some h =>
    match closeUnlessReady b.chans h with
    | .ok chans1 =>
      .ok { b with chans := chans1, users := Function.update b.users userID none }
    | .error p => .error p
  | none => .ok { b with users := Function.update b.users userID none }

/-- A visiting order of `range b.users`: every key of the registry exactly once. -/
def IsTraversal (b : Broker) (order : List String) : Prop :=
  order.Nodup ∧ ∀ id, id ∈ order ↔ b.users id ≠ none

/-- No identity of the registry holds a closed mailbox. -/
def NoClosedMailbox (b : Broker) : Prop :=
  ∀ id r, b.users id = some (some r) → (b.chans r).closed = false

/-! ## Runs: producers calling `SendMessage` while the routing loop makes passes -/

/-- One event of a run: a producer calls `SendMessage`, or the routing loop makes
one pass through its `select`.  Each event carries the choices the runtime and
the clock make for it. -/
inductive Event where
  | send (msg : Message) (pick : Bool)
  | pass (now : Int) (order : List String) (pick : Bool)

/-- Why a sequence of events cannot be played to its end. -/
inductive Stuck where
  | sendBlocked
  | panic (p : Panic)
deriving DecidableEq, Repr

/-- The messages handed to `SendMessage` during a run, in call order. -/
def sent : List Event → List Message
  | [] => []
  | .send msg _ :: evs => msg :: sent evs
  | .pass _ _ _ :: evs => sent evs

/-- Plays the events in order, collecting the value each `SendMessage` call
returns.  A `SendMessage` call that would suspend its caller cannot take place
at that point of the run.  Once `Run` has returned (`done`), no pass is made. -/
def play : Broker → List Event → Except Stuck (List (Option CtxErr) × Broker)
  | b, [] => .ok ([], b)
  | b, .send msg pick :: evs =>
    match SendMessage b msg pick with
    | .returned err b1 =>
      match play b1 evs with
      | .ok (errs, b2) => .ok (err :: errs, b2)
      | .error e => .error e
    | .blocked => .error .sendBlocked
  | b, .pass now order pick :: evs =>
    if b.done then play b evs
    else
      match RunStep b now order pick with
      | .continued b1 => play b1 evs
      | .exited b1 => play b1 evs
      | .waiting => play b evs
      | .panicked p _ => .error (.panic p)

/-- The messages the routing loop takes from the queue during a run, each with the
clock reading of its pass, in the order they are taken.  A pass that handles a
message takes the head of the queue (`msg := <-b.input`). -/
def dispatched : Broker → List Event → List (Message × Int)
  | _, [] => []
  | b, .send msg pick :: evs =>
    match SendMessage b msg pick with
    | .returned _ b1 => dispatched b1 evs
    | .blocked => []
  | b, .pass now order pick :: evs =>
    if b.done then dispatched b evs
    else
      match RunStep b now order pick with
      | .continued b1 => (b.input.take 1).map (fun m => (m, now)) ++ dispatched b1 evs
      | .exited b1 => dispatched b1 evs
      | .waiting => dispatched b evs
      | .panicked _ _ => (b.input.take 1).map (fun m => (m, now))

/-- The delivered message `d` is the sent message `m` after the timestamp
assignment of the routing loop, for some clock reading. -/
def Stamped (d m : Message) : Prop := ∃ now, d = stamp m now

/-! ## Concrete messages and brokers used in the evaluations below -/

/-- A broadcast message whose timestamp is not set. -/
def hello : Message :=
  { Sender := "a", Recipient := "", Content := "hi", Broadcast := true, Timestamp := 0 }

/-- An open, empty mailbox of capacity `c`. -/
def freshChan (c : Nat) : Chan := { buf := [], cap := c, closed := false }

/-- Registry `"a" ↦ chans 0`, `"b" ↦ chans 1`. -/
def usersAB : String → Option Handle :=
  fun id => if id = "a" then some (some 0) else if id = "b" then some (some 1) else none

/-- Subscribers `"a"` and `"b"`, each with its own open, empty mailbox of capacity 1. -/
def openAB : Broker :=
  { ctx := none, input := [], users := usersAB, done := false, chans := fun _ => freshChan 1 }

/-- Subscribers `"a"` and `"b"`; the mailbox of `"a"` has been closed, the mailbox of
`"b"` is open and empty. -/
def closedA : Broker :=
  { ctx := none, input := [], users := usersAB, done := false,
    chans := fun r => if r = 0 then { buf := [], cap := 1, closed := true } else freshChan 1 }

/-- Registry `"a" ↦ chans 0`, `"b" ↦ chans 1`, `"c" ↦ chans 2`. -/
def usersABC : String → Option Handle :=
  fun id =>
    if id = "a" then some (some 0) else if id = "b" then some (some 1)
    else if id = "c" then some (some 2) else none

/-- Three subscribers: the mailbox of `"a"` is open and full, the mailbox of `"b"` is
closed, the mailbox of `"c"` is open and empty. -/
def fullAclosedB : Broker :=
  { ctx := none, input := [], users := usersABC, done := false,
    chans := fun r =>
      if r = 0 then { buf := [hello], cap := 1, closed := false }
      else if r = 1 then { buf := [], cap := 1, closed := true }
      else freshChan 1 }

/-- Subscribers `"a"` and `"b"`: the mailbox of `"a"` is open and full, the mailbox of
`"b"` is open and empty. -/
def fullA : Broker :=
  { ctx := none, input := [], users := usersAB, done := false,
    chans := fun r => if r = 0 then { buf := [hello], cap := 1, closed := false } else freshChan 1 }

/-- A unicast message for `"a"` whose timestamp is not set. -/
def note : Message :=
  { Sender := "b", Recipient := "a", Content := "psst", Broadcast := false, Timestamp := 0 }

/-- A unicast message for `"a"` whose sender has set the timestamp. -/
def datedNote : Message :=
  { Sender := "b", Recipient := "a", Content := "psst", Broadcast := false, Timestamp := 42 }

/-- A unicast message for `"zed"`, an identity no registry below contains. -/
def stray : Message :=
  { Sender := "a", Recipient := "zed", Content := "anyone?", Broadcast := false, Timestamp := 0 }

/-- One subscriber `"a"` whose open mailbox of capacity 1 holds one message that has
not been read yet. -/
def pendingA : Broker :=
  { ctx := none, input := [], done := false,
    users := fun id => if id = "a" then some (some 0) else none,
    chans := fun _ => { buf := [datedNote], cap := 1, closed := false } }

/-- One subscriber `"a"` whose mailbox has already been closed. -/
def closedOnlyA : Broker :=
  { ctx := none, input := [], done := false,
    users := fun id => if id = "a" then some (some 0) else none,
    chans := fun _ => { buf := [], cap := 1, closed := true } }

/-- A second unicast message for `"a"`. -/
def note2 : Message :=
  { Sender := "b", Recipient := "a", Content := "again", Broadcast := false, Timestamp := 0 }

/-- Two sends to `"a"`, then two passes of the routing loop at clock readings 7 and 8. -/
def twoNotes : List Event :=
  [.send note true, .send note2 true, .pass 7 ["a", "b"] true, .pass 8 ["a", "b"] true]

/-- One subscriber `"a"` with an open, empty mailbox; the cancellation signal has
fired with `context.Canceled` and `Run` has returned. -/
def stoppedA : Broker :=
  { ctx := some .Canceled, input := [], done := true,
    users := fun id => if id = "a" then some (some 0) else none,
    chans := fun _ => freshChan 1 }

/-- Subscriber `"a"` with an open, empty mailbox, on a broker whose cancellation
signal has fired while `Run` has not returned yet. -/
def cancelledA : Broker :=
  { ctx := some .Canceled, input := [], done := false,
    users := fun id => if id = "a" then some (some 0) else none,
    chans := fun _ => freshChan 1 }

/-- A producer sends a note for `"a"` and the routing loop then makes a pass; in
both `select` statements the runtime takes the arm that moves the message. -/
def sendThenPass : List Event := [.send note true, .pass 7 ["a"] true]

/-- The broker `closedA` with one broadcast message waiting in the input queue. -/
def closedAqueued : Broker := { closedA with input := [hello] }

/-- The broker `fullA` with one broadcast message waiting in the input queue. -/
def fullAqueued : Broker := { fullA with input := [hello] }

/-- Identities `"a"` and `"b"` registered with one and the same mailbox, which is
open, empty and has room for two messages. -/
def sharedAB : Broker :=
  { ctx := none, input := [], done := false,
    users := fun id => if id = "a" then some (some 0) else if id = "b" then some (some 0) else none,
    chans := fun _ => freshChan 2 }

/-- A new broker on which `"a"` has been registered with the nil channel. -/
def nilA : Broker := RegisterUser (NewBroker none (fun _ => freshChan 1)) "a" none

/-- One subscriber `"a"` whose open mailbox of capacity 2 holds two messages that
have not been read yet. -/
def twoPendingA : Broker :=
  { ctx := none, input := [], done := false,
    users := fun id => if id = "a" then some (some 0) else none,
    chans := fun _ => { buf := [note, note2], cap := 2, closed := false } }

end Chatcore

/-! # Message store (`labs/lab02/backend/message/message.go`) -/

namespace message

/-- Go struct `message.Message`. -/
structure Message where
  Sender : String
  Content : String
  Timestamp : Int
deriving DecidableEq, Repr

/-- Go struct `MessageStore`: the slice of stored messages, oldest first.  A slice
returned to a caller is a value of its own here, as the copies made by
`GetMessages` are. -/
structure MessageStore where
  messages : List Message
deriving DecidableEq, Repr

/-- Go `NewMessageStore`: `make([]Message, 0, 100)`, an empty slice. -/
def NewMessageStore : MessageStore := { messages := [] }

/-- Go `AddMessage`: the updated store and the returned error, which is always nil. -/
def AddMessage (s : MessageStore) (msg : Message) : MessageStore × Option String :=
  ({ s with messages := s.messages ++ [msg] }, none)

/-- The loop `for _, msg := range s.messages { if msg.Sender == user { append } }`
of `GetMessages`, started from the slice collected so far. -/
def collectBySender (user : String) : List Message → List Message → List Message
  | acc, [] => acc
  | acc, msg :: rest =>
    if msg.Sender = user then collectBySender user (acc ++ [msg]) rest
    else collectBySender user acc rest

/-- Go `GetMessages`: the returned slice and the returned error.  The store is
only read. -/
def GetMessages (s : MessageStore) (user : String) : List Message × Option String :=
  if user = "" then (s.messages, none)
  else
    let userMessages := collectBySender user [] s.messages
    if userMessages.length = 0 then ([], none)
    else (userMessages, none)

/-- Adds the messages one after the other, as successive `AddMessage` calls do. -/
def addAll (s : MessageStore) : List Message → MessageStore
  | [] => s
  | msg :: rest => addAll (AddMessage s msg).1 rest

/-- A message sent by `"ann"`. -/
def fromAnn : Message := { Sender := "ann", Content := "one", Timestamp := 1 }

/-- A message sent by `"bob"`. -/
def fromBob : Message := { Sender := "bob", Content := "two", Timestamp := 2 }

/-- A second message sent by `"ann"`. -/
def fromAnnAgain : Message := { Sender := "ann", Content := "three", Timestamp := 3 }

/-- A store holding three messages. -/
def threeStored : MessageStore := { messages := [fromAnn, fromBob, fromAnnAgain] }

end message

/-! # User manager (`labs/lab02/backend/user/user.go`) -/

namespace user

/-- Go struct `User`. -/
structure User where
  Name : String
  Email : String
  ID : String
deriving DecidableEq, Repr

/-- The error values the functions of the package return, one constructor per
`errors.New` / `fmt.Errorf` / `ctx.Err()` site. -/
inductive Error where
  | contextDone (e : Chatcore.CtxErr)
  | emptyID
  | emptyName
  | invalidEmail (name email : String)
  | alreadyExists (id : String)
  | notFound (id : String)
deriving DecidableEq, Repr

/-- The errors `Validate` returns. -/
def Error.isValidation : Error → Bool
  | .emptyID => true
  | .emptyName => true
  | .invalidEmail _ _ => true
  | _ => false

/-- The error `AddUser` returns for an identity that is already stored. -/
def Error.isDuplicate : Error → Bool
  | .alreadyExists _ => true
  | _ => false

/-- Character class `[a-z0-9._%+\-]` of `emailRegex`. -/
def isLocalChar (c : Char) : Bool :=
  c.isLower || c.isDigit || c == '.' || c == '_' || c == '%' || c == '+' || c == '-'

/-- Character class `[a-z0-9.\-]` of `emailRegex`. -/
def isDomainChar (c : Char) : Bool :=
  c.isLower || c.isDigit || c == '.' || c == '-'

/-- Whether `emailRegex`, `^[a-z0-9._%+\-]+@[a-z0-9.\-]+\.[a-z]{2,4}$`, matches the
whole string.  The character after the local part must be `@`, which is not in
the class of the local part, so the local part is the longest run of that class
at the start.  The character before the last group must be a dot, which is not
a letter, so the last group is the longest run of letters at the end. -/
def emailRegexMatch (s : String) : Bool :=
  let localPart := s.toList.takeWhile isLocalChar
  match s.toList.dropWhile isLocalChar with
  | '@' :: rest =>
    let tld := rest.reverse.takeWhile Char.isLower
    match rest.reverse.dropWhile Char.isLower with
    | '.' :: domain =>
      !localPart.isEmpty && !domain.isEmpty && domain.all isDomainChar
        && decide (2 ≤ tld.length) && decide (tld.length ≤ 4)
    | _ => false
  | _ => false

/-- Go `(*User).Validate`: `none` is the nil error. -/
def Validate (u : User) : Option Error :=
  if u.ID = "" then some .emptyID
  else if u.Name = "" then some .emptyName
  else if !emailRegexMatch u.Email then some (.invalidEmail u.Name u.Email)
  else none

/-- Go struct `UserManager`.  `ctx = none` while the context is live, `some e` once
it is done (then `ctx.Err() = e`). -/
structure UserManager where
  ctx : Option Chatcore.CtxErr
  users : String → Option User

/-- Go `NewUserManagerWithContext`. -/
def NewUserManagerWithContext (ctx : Option Chatcore.CtxErr) : UserManager :=
  { ctx := ctx, users := fun _ => none }

/-- Go `NewUserManager`: the background context is never done. -/
def NewUserManager : UserManager := NewUserManagerWithContext none

/-- Go `AddUser`: the manager afterwards and the returned error. -/
def AddUser (m : UserManager) (u : User) : UserManager × Option Error :=
  match m.ctx with
  | some e => (m, some (.contextDone e))
  | none =>
    match Validate u with
    | some err => (m, some err)
    | none =>
      match m.users u.ID with
      | some _ => (m, some (.alreadyExists u.ID))
      | none => ({ m with users := Function.update m.users u.ID (some u) }, none)

/-- Go `RemoveUser`: the manager afterwards and the returned error. -/
def RemoveUser (m : UserManager) (id : String) : UserManager × Option Error :=
  match m.users id with
  | none => (m, some (.notFound id))
  | some _ => ({ m with users := Function.update m.users id none }, none)

/-- Go `GetUser`: the returned user (the zero `User` on failure) and error. -/
def GetUser (m : UserManager) (id : String) : User × Option Error :=
  match m.users id with
  | some u => (u, none)
  | none => ({ Name := "", Email := "", ID := "" }, some (.notFound id))

/-- A well-formed user. -/
def ann : User := { Name := "Ann", Email := "ann@example.com", ID := "u1" }

/-- A user whose email has no domain. -/
def badEmail : User := { Name := "Bob", Email := "bob@", ID := "u2" }

/-- A well-formed user who claims the identity of `ann`. -/
def impostor : User := { Name := "Eve", Email := "eve@example.org", ID := "u1" }

/-- A manager with a live context that stores `ann`. -/
def withAnn : UserManager :=
  { ctx := none, users := fun id => if id = "u1" then some ann else none }

end user

/-! # Functions of the Go standard library -/

namespace golang

/-- The functions of Go's `unicode` and `strings` packages that the code below
calls.  Their tables belong to the Go distribution, not to this repository, so
the definitions below take them as a parameter. -/
structure Std where
  IsLetter : Char → Bool
  IsNumber : Char → Bool
  IsUpper : Char → Bool
  IsLower : Char → Bool
  ToLower : String → String
  ToUpper : String → String
  TrimSpace : String → String

/-- Removes the characters satisfying `p` at both ends of a list. -/
def trimList (p : Char → Bool) (cs : List Char) : List Char :=
  ((cs.dropWhile p).reverse.dropWhile p).reverse

/-- Go `unicode.IsSpace`: tab, line feed, vertical tab, form feed, carriage return,
space, U+0085 and U+00A0, and beyond Latin-1 the characters with the property
White_Space (U+1680, U+2000 to U+200A, U+2028, U+2029, U+202F, U+205F, U+3000). -/
def isSpace (c : Char) : Bool :=
  (9 ≤ c.toNat && c.toNat ≤ 13) || c.toNat == 32 || c.toNat == 133 || c.toNat == 160 ||
    c.toNat == 5760 || (8192 ≤ c.toNat && c.toNat ≤ 8202) || c.toNat == 8232 ||
    c.toNat == 8233 || c.toNat == 8239 || c.toNat == 8287 || c.toNat == 12288

/-- The standard library with the letter, number and case tables cut down to ASCII:
a character outside ASCII is in no class and is left as it is by `ToLower` and
`ToUpper`, so the instance agrees with Go on ASCII text.  `TrimSpace` removes
the white space of `unicode.IsSpace` at both ends, as `strings.TrimSpace` does. -/
def ascii : Std :=
  { IsLetter := Char.isAlpha, IsNumber := Char.isDigit, IsUpper := Char.isUpper,
    IsLower := Char.isLower,
    ToLower := fun s => String.mk (s.toList.map Char.toLower),
    ToUpper := fun s => String.mk (s.toList.map Char.toUpper),
    TrimSpace := fun s => String.mk (trimList isSpace s.toList) }

/-- As `ascii`, and knowing in addition that `é` (U+00E9) is a letter. -/
def asciiAndEAcute : Std :=
  { ascii with IsLetter := fun c => c.isAlpha || c == 'é' }

end golang

/-! # Password rules (`labs/lab05/backend/security/password.go`) -/

namespace security

/-- The errors `ValidatePassword` and `ValidatePasswordWithoutRegexp` return, one
constructor per message: "password must be at least 6 characters long" and
"password must contain at least one letter and one number". -/
inductive Error where
  | tooShort
  | needsLetterAndNumber
deriving DecidableEq, Repr

/-- Go `ValidatePassword`: `none` is the nil error.  `len(password)` is the number
of bytes of the string, and `regexp.MatchString` with an unanchored one-class
pattern asks whether some character is in the class `[a-zA-Z]`, `[0-9]`. -/
def ValidatePassword (password : String) : Option Error :=
  if password.utf8ByteSize < 6 then some .tooShort
  else
    let hasLetter := password.toList.any Char.isAlpha
    let hasNumber := password.toList.any Char.isDigit
    if !hasLetter || !hasNumber then some .needsLetterAndNumber
    else none

/-- The loop `for _, char := range password { switch { ... } }` of
`ValidatePasswordWithoutRegexp`, on the pair `(hasLetter, hasNumber)`. -/
def scanLetterNumber (S : golang.Std) : List Char → Bool × Bool → Bool × Bool
  | [], st => st
  | c :: cs, (hasLetter, hasNumber) =>
    if S.IsLetter c then scanLetterNumber S cs (true, hasNumber)
    else if S.IsNumber c then scanLetterNumber S cs (hasLetter, true)
    else scanLetterNumber S cs (hasLetter, hasNumber)

/-- Go `ValidatePasswordWithoutRegexp`. -/
def ValidatePasswordWithoutRegexp (S : golang.Std) (password : String) : Option Error :=
  if password.utf8ByteSize < 6 then some .tooShort
  else
    let st := scanLetterNumber S password.toList (false, false)
    if !st.1 || !st.2 then some .needsLetterAndNumber
    else none

end security

/-! # User entity (`labs/lab05/backend/userdomain/user.go`) -/

namespace userdomain

/-- Go struct `User`; a `time.Time` is a number of nanoseconds. -/
structure User where
  ID : Int
  Email : String
  Name : String
  Password : String
  CreatedAt : Int
  UpdatedAt : Int
deriving DecidableEq, Repr

/-- The errors of the package, one constructor per `errors.New` site. -/
inductive Error where
  | emailEmpty
  | emailInvalid
  | nameTooShort
  | nameTooLong
  | passwordTooShort
  | passwordWeak
deriving DecidableEq, Repr

/-- Whether `emailRegex`, `^[a-z0-9._%+\-]+@[a-z0-9.\-]+\.[a-z]{2,}$`, matches the
whole string; the pattern of package `user` without the upper bound on the last
group, read the same way. -/
def emailRegexMatch (s : String) : Bool :=
  let localPart := s.toList.takeWhile user.isLocalChar
  match s.toList.dropWhile user.isLocalChar with
  | '@' :: rest =>
    let tld := rest.reverse.takeWhile Char.isLower
    match rest.reverse.dropWhile Char.isLower with
    | '.' :: domain =>
      !localPart.isEmpty && !domain.isEmpty && domain.all user.isDomainChar
        && decide (2 ≤ tld.length)
    | _ => false
  | _ => false

/-- Go `ValidateEmail`. -/
def ValidateEmail (email : String) : Option Error :=
  if email = "" then some .emailEmpty
  else if !emailRegexMatch email then some .emailInvalid
  else none

/-- Go `ValidateName`; `len` counts bytes. -/
def ValidateName (S : golang.Std) (name : String) : Option Error :=
  let trimmedName := S.TrimSpace name
  if trimmedName.utf8ByteSize < 2 then some .nameTooShort
  else if trimmedName.utf8ByteSize > 50 then some .nameTooLong
  else none

/-- The loop `for _, char := range password { switch { ... } }` of
`ValidatePassword`, on the triple `(hasUpper, hasLower, hasNumber)`. -/
def scanClasses (S : golang.Std) : List Char → Bool × Bool × Bool → Bool × Bool × Bool
  | [], st => st
  | c :: cs, (hasUpper, hasLower, hasNumber) =>
    if S.IsUpper c then scanClasses S cs (true, hasLower, hasNumber)
    else if S.IsLower c then scanClasses S cs (hasUpper, true, hasNumber)
    else if S.IsNumber c then scanClasses S cs (hasUpper, hasLower, true)
    else scanClasses S cs (hasUpper, hasLower, hasNumber)

/-- Go `userdomain.ValidatePassword`. -/
def ValidatePassword (S : golang.Std) (password : String) : Option Error :=
  if password.utf8ByteSize < 8 then some .passwordTooShort
  else
    let st := scanClasses S password.toList (false, false, false)
    if !st.1 || !st.2.1 || !st.2.2 then some .passwordWeak
    else none

/-- Go `(*User).Validate`. -/
def Validate (S : golang.Std) (u : User) : Option Error :=
  match ValidateEmail u.Email with
  | some err => some err
  | none =>
    match ValidateName S u.Name with
    | some err => some err
    | none =>
      match ValidatePassword S u.Password with
      | some err => some err
      | none => none

/-- Go `NewUser`; `now` is the reading of `time.Now()`.  An error stands for the
result `(nil, err)`. -/
def NewUser (S : golang.Std) (now : Int) (email name password : String) : Except Error User :=
  let normalizedEmail := S.ToLower (S.TrimSpace email)
  let trimmedName := S.TrimSpace name
  let user : User :=
    { ID := 0, Email := normalizedEmail, Name := trimmedName, Password := password,
      CreatedAt := 0, UpdatedAt := 0 }
  match Validate S user with
  | some err => .error err
  | none => .ok { user with CreatedAt := now, UpdatedAt := now }

/-- Go `(*User).UpdateName`: the user afterwards and the returned error. -/
def UpdateName (S : golang.Std) (now : Int) (u : User) (name : String) : User × Option Error :=
  let trimmedName := S.TrimSpace name
  match ValidateName S trimmedName with
  | some err => (u, some err)
  | none => ({ u with Name := trimmedName, UpdatedAt := now }, none)

/-- Go `(*User).UpdateEmail`: the user afterwards and the returned error. -/
def UpdateEmail (S : golang.Std) (now : Int) (u : User) (email : String) : User × Option Error :=
  let normalizedEmail := S.ToLower (S.TrimSpace email)
  match ValidateEmail normalizedEmail with
  | some err => (u, some err)
  | none => ({ u with Email := normalizedEmail, UpdatedAt := now }, none)

/-- The user `NewUser` makes at clock reading 5 from ` Ann@Example.COM `,
` Ann Lee ` and `Passw0rdX`. -/
def annLee : User :=
  { ID := 0, Email := "ann@example.com", Name := "Ann Lee", Password := "Passw0rdX",
    CreatedAt := 5, UpdatedAt := 5 }

end userdomain

/-! # Post search (`labs/lab04/backend/repository/search_service.go`) -/

namespace repository

/-- Go struct `SearchFilters`; a nil pointer is `none`. -/
structure SearchFilters where
  Query : String
  UserID : Option Int
  Published : Option Bool
  Limit : Int
  Offset : Int
  OrderBy : String
  OrderDir : String
deriving DecidableEq, Repr

/-- The conditions `buildDynamicPostQuery` passes to `Where`. -/
inductive Cond where
  | titleOrContentLike (searchTerm : String)
  | userIdEq (id : Int)
  | publishedEq (p : Bool)
deriving DecidableEq, Repr

/-- The clauses a `squirrel.SelectBuilder` has accumulated.  The builder belongs to
a library outside the repository; of its methods, `Where` and `OrderBy` add a
clause, and `Limit` and `Offset` set the value. -/
structure SelectBuilder where
  wheres : List Cond
  limit : Option Nat
  offset : Option Nat
  orderBys : List String
deriving DecidableEq, Repr

/-- Builder method `Where`. -/
def SelectBuilder.Where (q : SelectBuilder) (c : Cond) : SelectBuilder :=
  { q with wheres := q.wheres ++ [c] }

/-- Builder method `Limit`. -/
def SelectBuilder.Limit (q : SelectBuilder) (n : Nat) : SelectBuilder :=
  { q with limit := some n }

/-- Builder method `Offset`. -/
def SelectBuilder.Offset (q : SelectBuilder) (n : Nat) : SelectBuilder :=
  { q with offset := some n }

/-- Builder method `OrderBy`. -/
def SelectBuilder.OrderBy (q : SelectBuilder) (clause : String) : SelectBuilder :=
  { q with orderBys := q.orderBys ++ [clause] }

/-- The map `validOrderBy` of `buildDynamicPostQuery`, as its list of keys. -/
def validOrderBy : List String := ["title", "created_at", "updated_at"]

/-- The column `buildDynamicPostQuery` orders by. -/
def orderColumn (S : golang.Std) (filters : SearchFilters) : String :=
  if filters.OrderBy ≠ "" ∧ S.ToLower filters.OrderBy ∈ validOrderBy then filters.OrderBy
  else "created_at"

/-- The direction `buildDynamicPostQuery` orders in. -/
def orderDirection (S : golang.Std) (filters : SearchFilters) : String :=
  if S.ToUpper filters.OrderDir = "ASC" then "ASC" else "DESC"

/-- Go `buildDynamicPostQuery`.  `uint64(n)` of a positive `int` is `n`. -/
def buildDynamicPostQuery (S : golang.Std) (baseQuery : SelectBuilder)
    (filters : SearchFilters) : SelectBuilder :=
  let q0 := baseQuery
  let q1 :=
    if filters.Query ≠ "" then
      q0.Where (.titleOrContentLike ("%" ++ S.ToLower filters.Query ++ "%"))
    else q0
  let q2 :=
    match filters.UserID with
    | some id => q1.Where (.userIdEq id)
    | none => q1
  let q3 :=
    match filters.Published with
    | some p => q2.Where (.publishedEq p)
    | none => q2
  let q4 := if filters.Limit > 0 then q3.Limit filters.Limit.toNat else q3.Limit 50
  let q5 := if filters.Offset > 0 then q4.Offset filters.Offset.toNat else q4
  q5.OrderBy (orderColumn S filters ++ " " ++ orderDirection S filters)

/-- The base query of `SearchPosts`: a plain `SELECT ... FROM posts`. -/
def postsBase : SelectBuilder := { wheres := [], limit := none, offset := none, orderBys := [] }

/-- The zero value `SearchFilters{}`. -/
def noFilters : SearchFilters :=
  { Query := "", UserID := none, Published := none, Limit := 0, Offset := 0,
    OrderBy := "", OrderDir := "" }

/-- The filters of the pagination test: `SearchFilters{Limit: 1, Offset: 1}`. -/
def pageTwo : SearchFilters := { noFilters with Limit := 1, Offset := 1 }

/-- Ordering by title, ascending, spelled in mixed case. -/
def byTitle : SearchFilters := { noFilters with OrderBy := "Title", OrderDir := "asc" }

end repository

namespace Chatcore

/-! ## Lemmas about the non-blocking send and the broadcast loop -/

theorem trySend_frame (chans chans1 : Nat → Chan) (h : Handle) (msg : Message)
    (hs : trySend chans h msg = .ok chans1) (r : Nat) :
    (chans1 r).cap = (chans r).cap ∧ (chans1 r).closed = (chans r).closed ∧
      ∃ k, (chans1 r).buf = (chans r).buf ++ List.replicate k msg := by
  cases h with
  | none =>
    simp only [trySend, Except.ok.injEq] at hs
    subst hs
    exact ⟨rfl, rfl, 0, by simp⟩
  | some q =>
    simp only [trySend] at hs
    split_ifs at hs with hc hl
    · simp only [Except.ok.injEq] at hs
      subst hs
      by_cases hrq : r = q
      · subst hrq
        refine ⟨by simp, by simp, 1, by simp⟩
      · refine ⟨by simp [Function.update_noteq hrq], by simp [Function.update_noteq hrq], 0, ?_⟩
        simp [Function.update_noteq hrq]
    · simp only [Except.ok.injEq] at hs
      subst hs
      exact ⟨rfl, rfl, 0, by simp⟩

theorem trySend_ok (chans : Nat → Chan) (h : Handle) (msg : Message)
    (ho : ∀ r, h = some r → (chans r).closed = false) :
    ∃ chans1, trySend chans h msg = .ok chans1 := by
  cases h with
  | none => exact ⟨chans, rfl⟩
  | some q =>
    have hq := ho q rfl
    by_cases hl : (chans q).buf.length < (chans q).cap
    · exact ⟨_, by simp only [trySend, hq, hl]; rfl⟩
    · exact ⟨chans, by simp [trySend, hq, hl]⟩

theorem trySend_other (chans chans1 : Nat → Chan) (h : Handle) (msg : Message)
    (hs : trySend chans h msg = .ok chans1) (r : Nat) (hr : h ≠ some r) :
    chans1 r = chans r := by
  cases h with
  | none =>
    simp only [trySend, Except.ok.injEq] at hs
    subst hs
    rfl
  | some q =>
    have hrq : r ≠ q := fun e => hr (by rw [e])
    simp only [trySend] at hs
    split_ifs at hs
    · simp only [Except.ok.injEq] at hs
      subst hs
      exact Function.update_noteq hrq _ _
    · simp only [Except.ok.injEq] at hs
      subst hs
      rfl

theorem trySend_full (chans chans1 : Nat → Chan) (h : Handle) (msg : Message)
    (hs : trySend chans h msg = .ok chans1) (r : Nat)
    (hf : (chans r).cap ≤ (chans r).buf.length) :
    chans1 r = chans r := by
  by_cases hr : h = some r
  · subst hr
    simp only [trySend] at hs
    split_ifs at hs with hc hl
    · omega
    · simp only [Except.ok.injEq] at hs
      subst hs
      rfl
  · exact trySend_other chans chans1 h msg hs r hr

theorem trySend_room (chans : Nat → Chan) (r : Nat) (msg : Message)
    (ho : (chans r).closed = false) (hl : (chans r).buf.length < (chans r).cap) :
    trySend chans (some r) msg =
      .ok (Function.update chans r { chans r with buf := (chans r).buf ++ [msg] }) := by
  simp [trySend, ho, hl]

theorem broadcastLoop_cons_eq (users : String → Option Handle) (msg : Message)
    (id : String) (rest : List String) (chans : Nat → Chan) :
    broadcastLoop users msg (id :: rest) chans =
      match trySend chans (users id).join msg with
      | .ok chans1 => broadcastLoop users msg rest chans1
      | .error p => .error p := by
  cases hu : users id with
  | none => simp [broadcastLoop, hu, trySend]
  | some h => simp [broadcastLoop, hu]

theorem broadcastLoop_cons_ok (users : String → Option Handle) (msg : Message)
    (id : String) (rest : List String) (chans chans1 : Nat → Chan)
    (hs : broadcastLoop users msg (id :: rest) chans = .ok chans1) :
    ∃ c1, trySend chans (users id).join msg = .ok c1 ∧
      broadcastLoop users msg rest c1 = .ok chans1 := by
  rw [broadcastLoop_cons_eq] at hs
  cases ht : trySend chans (users id).join msg with
  | error p => rw [ht] at hs; cases hs
  | ok c1 => rw [ht] at hs; exact ⟨c1, rfl, hs⟩

theorem broadcastLoop_frame (users : String → Option Handle) (msg : Message)
    (order : List String) :
    ∀ chans chans1, broadcastLoop users msg order chans = .ok chans1 → ∀ r,
      (chans1 r).cap = (chans r).cap ∧ (chans1 r).closed = (chans r).closed ∧
        ∃ k, (chans1 r).buf = (chans r).buf ++ List.replicate k msg := by
  induction order with
  | nil =>
    intro chans chans1 hs r
    simp only [broadcastLoop, Except.ok.injEq] at hs
    subst hs
    exact ⟨rfl, rfl, 0, by simp⟩
  | cons id rest ih =>
    intro chans chans1 hs r
    obtain ⟨c1, ht, hl⟩ := broadcastLoop_cons_ok users msg id rest chans chans1 hs
    obtain ⟨h1, h2, k1, h3⟩ := trySend_frame _ _ _ _ ht r
    obtain ⟨h4, h5, k2, h6⟩ := ih _ _ hl r
    refine ⟨h4.trans h1, h5.trans h2, k1 + k2, ?_⟩
    rw [h6, h3, List.append_assoc, List.append_replicate_replicate]

theorem broadcastLoop_ok (users : String → Option Handle) (msg : Message)
    (order : List String) :
    ∀ chans, (∀ id r, users id = some (some r) → (chans r).closed = false) →
      ∃ chans1, broadcastLoop users msg order chans = .ok chans1 := by
  induction order with
  | nil => intro chans _; exact ⟨chans, rfl⟩
  | cons id rest ih =>
    intro chans ho
    obtain ⟨c1, ht⟩ := trySend_ok chans (users id).join msg
      (fun r hr => ho id r (Option.join_eq_some.mp hr))
    have ho1 : ∀ id r, users id = some (some r) → (c1 r).closed = false := by
      intro id1 r hr
      rw [(trySend_frame _ _ _ _ ht r).2.1]
      exact ho id1 r hr
    obtain ⟨chans1, hl⟩ := ih c1 ho1
    exact ⟨chans1, by rw [broadcastLoop_cons_eq, ht]; exact hl⟩

theorem broadcastLoop_full (users : String → Option Handle) (msg : Message)
    (order : List String) :
    ∀ chans chans1, broadcastLoop users msg order chans = .ok chans1 → ∀ r,
      (chans r).cap ≤ (chans r).buf.length → chans1 r = chans r := by
  induction order with
  | nil =>
    intro chans chans1 hs r _
    simp only [broadcastLoop, Except.ok.injEq] at hs
    subst hs
    rfl
  | cons id rest ih =>
    intro chans chans1 hs r hf
    obtain ⟨c1, ht, hl⟩ := broadcastLoop_cons_ok users msg id rest chans chans1 hs
    have h1 := trySend_full _ _ _ _ ht r hf
    rw [ih _ _ hl r (by rw [h1]; exact hf), h1]

theorem broadcastLoop_other (users : String → Option Handle) (msg : Message)
    (order : List String) (r : Nat) :
    ∀ chans chans1, broadcastLoop users msg order chans = .ok chans1 →
      (∀ id ∈ order, users id ≠ some (some r)) → chans1 r = chans r := by
  induction order with
  | nil =>
    intro chans chans1 hs _
    simp only [broadcastLoop, Except.ok.injEq] at hs
    subst hs
    rfl
  | cons id rest ih =>
    intro chans chans1 hs hn
    obtain ⟨c1, ht, hl⟩ := broadcastLoop_cons_ok users msg id rest chans chans1 hs
    have h1 := trySend_other _ _ _ _ ht r
      (fun e => hn id (List.mem_cons_self _ _) (Option.join_eq_some.mp e))
    rw [ih _ _ hl (fun id1 h1 => hn id1 (List.mem_cons_of_mem _ h1)), h1]

theorem broadcastLoop_delivers (users : String → Option Handle) (msg : Message)
    (order : List String) (id : String) (r : Nat) (hu : users id = some (some r)) :
    ∀ chans chans1, broadcastLoop users msg order chans = .ok chans1 → id ∈ order →
      (chans r).buf.length < (chans r).cap →
      ∃ k, 1 ≤ k ∧ (chans1 r).buf = (chans r).buf ++ List.replicate k msg := by
  induction order with
  | nil => intro chans chans1 _ hm; cases hm
  | cons id0 rest ih =>
    intro chans chans1 hs hm hroom
    obtain ⟨c1, ht, hl⟩ := broadcastLoop_cons_ok users msg id0 rest chans chans1 hs
    obtain ⟨_, hcl, k1, hk1⟩ := trySend_frame _ _ _ _ ht r
    obtain ⟨hcap2, _, k2, hk2⟩ := broadcastLoop_frame users msg rest _ _ hl r
    by_cases hk : k1 = 0
    · -- the first visit left mailbox `r` alone, so it was not the visit of `id`
      subst hk
      have hsame : (c1 r).buf = (chans r).buf := by simpa using hk1
      have hne : id ≠ id0 := by
        intro e
        subst e
        have hj : (users id).join = some r := by rw [hu]; rfl
        rw [hj] at ht
        simp only [trySend] at ht
        split_ifs at ht with hc
        simp only [Except.ok.injEq] at ht
        subst ht
        simp at hsame
      have hm1 : id ∈ rest := by
        rcases List.mem_cons.mp hm with h | h
        · exact absurd h hne
        · exact h
      have hcap1 := (trySend_frame _ _ _ _ ht r).1
      obtain ⟨k, hk, hb⟩ := ih c1 chans1 hl hm1 (by rw [hsame, hcap1]; exact hroom)
      exact ⟨k, hk, by rw [hb, hsame]⟩
    · refine ⟨k1 + k2, by omega, ?_⟩
      rw [hk2, hk1, List.append_assoc, List.append_replicate_replicate]

theorem broadcastLoop_delivers_once (users : String → Option Handle) (msg : Message)
    (order : List String) (id : String) (r : Nat) (hu : users id = some (some r))
    (chans chans1 : Nat → Chan) (hs : broadcastLoop users msg order chans = .ok chans1)
    (hnd : order.Nodup) (hm : id ∈ order)
    (hsole : ∀ id1, id1 ≠ id → users id1 ≠ some (some r))
    (hroom : (chans r).buf.length < (chans r).cap) :
    (chans1 r).buf = (chans r).buf ++ [msg] := by
  induction order generalizing chans with
  | nil => cases hm
  | cons id0 rest ih =>
    obtain ⟨c1, ht, hl⟩ := broadcastLoop_cons_ok users msg id0 rest chans chans1 hs
    have hnd2 := List.nodup_cons.mp hnd
    by_cases he : id0 = id
    · subst he
      have hj : (users id0).join = some r := by rw [hu]; rfl
      rw [hj] at ht
      have hrest : chans1 r = c1 r :=
        broadcastLoop_other users msg rest r c1 chans1 hl
          (fun id1 h1 => hsole id1 (fun e => hnd2.1 (e ▸ h1)))
      simp only [trySend] at ht
      split_ifs at ht with hc
      simp only [Except.ok.injEq] at ht
      subst ht
      rw [hrest]
      simp
    · have h1 := trySend_other _ _ _ _ ht r
        (fun e => hsole id0 he (Option.join_eq_some.mp e))
      have hm1 : id ∈ rest := by
        rcases List.mem_cons.mp hm with h | h
        · exact absurd h.symm he
        · exact h
      rw [ih c1 hl hnd2.2 hm1 (by rw [h1]; exact hroom), h1]

/-! ## Dispatch of a broadcast message -/

theorem stamp_Broadcast (msg : Message) (now : Int) :
    (stamp msg now).Broadcast = msg.Broadcast := by
  unfold stamp
  split_ifs <;> rfl

theorem stamp_Recipient (msg : Message) (now : Int) :
    (stamp msg now).Recipient = msg.Recipient := by
  unfold stamp
  split_ifs <;> rfl

theorem stamp_Sender (msg : Message) (now : Int) :
    (stamp msg now).Sender = msg.Sender := by
  unfold stamp
  split_ifs <;> rfl

theorem stamp_Content (msg : Message) (now : Int) :
    (stamp msg now).Content = msg.Content := by
  unfold stamp
  split_ifs <;> rfl

theorem stamp_Timestamp (msg : Message) (now : Int) :
    (stamp msg now).Timestamp = if msg.Timestamp = 0 then now else msg.Timestamp := by
  unfold stamp
  split_ifs <;> rfl

theorem dispatch_broadcast_ok (b : Broker) (msg : Message) (now : Int) (order : List String)
    (hb : msg.Broadcast = true) (hc : NoClosedMailbox b) :
    ∃ c1, broadcastLoop b.users (stamp msg now) order b.chans = .ok c1 ∧
      dispatch b msg now order = .ok { b with chans := c1 } := by
  obtain ⟨c1, h1⟩ := broadcastLoop_ok b.users (stamp msg now) order b.chans hc
  refine ⟨c1, h1, ?_⟩
  simp [dispatch, stamp_Broadcast, hb, broadcastMessage, h1]

/-- C1 (as amended): when no registered mailbox is closed, the dispatch step of a
broadcast message completes and appends one and the same message, the dequeued
message with its timestamp assigned, to the mailbox of every registered
subscriber that has room: at least once, and exactly once when no other
identity holds the same mailbox. -/
theorem C1_broadcast_reaches_every_mailbox_with_room (b : Broker) (msg : Message) (now : Int)
    (order : List String) (hb : msg.Broadcast = true) (ht : IsTraversal b order)
    (hc : NoClosedMailbox b) :
    ∃ b1, dispatch b msg now order = .ok b1 ∧
      (stamp msg now).Sender = msg.Sender ∧ (stamp msg now).Content = msg.Content ∧
      (stamp msg now).Timestamp = (if msg.Timestamp = 0 then now else msg.Timestamp) ∧
      (∀ id r, b.users id = some (some r) → (b.chans r).buf.length < (b.chans r).cap →
        ∃ k, 1 ≤ k ∧ (b1.chans r).buf = (b.chans r).buf ++ List.replicate k (stamp msg now)) ∧
      (∀ id r, b.users id = some (some r) → (b.chans r).buf.length < (b.chans r).cap →
        (∀ id1, id1 ≠ id → b.users id1 ≠ some (some r)) →
        (b1.chans r).buf = (b.chans r).buf ++ [stamp msg now]) := by
  obtain ⟨c1, h1, h2⟩ := dispatch_broadcast_ok b msg now order hb hc
  refine ⟨_, h2, stamp_Sender msg now, stamp_Content msg now, stamp_Timestamp msg now, ?_, ?_⟩
  · intro id r hu hroom
    have hm : id ∈ order := (ht.2 id).mpr (by rw [hu]; simp)
    exact broadcastLoop_delivers b.users _ order id r hu _ _ h1 hm hroom
  · intro id r hu hroom hsole
    have hm : id ∈ order := (ht.2 id).mpr (by rw [hu]; simp)
    exact broadcastLoop_delivers_once b.users _ order id r hu _ _ h1 ht.1 hm hsole hroom

theorem isTraversal_usersAB (b : Broker) (hu : b.users = usersAB) :
    IsTraversal b ["a", "b"] := by
  refine ⟨by decide, ?_⟩
  intro id
  simp only [hu, usersAB, List.mem_cons, List.mem_singleton, List.not_mem_nil, or_false]
  by_cases ha : id = "a"
  · simp [ha]
  · by_cases hb : id = "b"
    · simp [hb]
    · simp [ha, hb]

theorem isTraversal_usersABC (b : Broker) (hu : b.users = usersABC) :
    IsTraversal b ["a", "b", "c"] := by
  refine ⟨by decide, ?_⟩
  intro id
  simp only [hu, usersABC, List.mem_cons, List.mem_singleton, List.not_mem_nil, or_false]
  by_cases ha : id = "a"
  · simp [ha]
  · by_cases hb : id = "b"
    · simp [hb]
    · by_cases hc : id = "c"
      · simp [hc]
      · simp [ha, hb, hc]

theorem isTraversal_openAB : IsTraversal openAB ["a", "b"] :=
  isTraversal_usersAB openAB rfl

theorem noClosedMailbox_openAB : NoClosedMailbox openAB := by
  intro id r _
  rfl

/-- C1, the two-subscriber scenario: `"a"` and `"b"` with empty mailboxes both get
the broadcast, with the same content and the same timestamp. -/
theorem C1_witness_two_subscribers :
    hello.Broadcast = true ∧ IsTraversal openAB ["a", "b"] ∧ NoClosedMailbox openAB ∧
      ∃ b1, dispatch openAB hello 7 ["a", "b"] = .ok b1 ∧
        (b1.chans 0).buf = [{ hello with Timestamp := 7 }] ∧
        (b1.chans 1).buf = [{ hello with Timestamp := 7 }] := by
  obtain ⟨b1, h1, _, _, _, _, h2⟩ :=
    C1_broadcast_reaches_every_mailbox_with_room openAB hello 7 ["a", "b"] rfl
      isTraversal_openAB noClosedMailbox_openAB
  refine ⟨rfl, isTraversal_openAB, noClosedMailbox_openAB, b1, h1, ?_, ?_⟩
  · have h := h2 "a" 0 rfl (by decide) (by
      intro id1 hne
      simp only [openAB, usersAB, hne]
      by_cases hb : id1 = "b" <;> simp [hb])
    simpa [openAB, freshChan, stamp, hello] using h
  · have h := h2 "b" 1 rfl (by decide) (by
      intro id1 hne
      simp only [openAB, usersAB, hne]
      by_cases ha : id1 = "a" <;> simp [ha])
    simpa [openAB, freshChan, stamp, hello] using h

/-- C1 fails as stated: with the mailbox of `"a"` closed, the broadcast step panics
on the send to it, and `"b"`, whose mailbox is open and empty, gets nothing,
whichever of the two is visited first. -/
theorem C1_counterexample_closed_mailbox :
    hello.Broadcast = true ∧ IsTraversal closedA ["a", "b"] ∧
      closedA.users "b" = some (some 1) ∧ (closedA.chans 1).closed = false ∧
      (closedA.chans 1).buf.length < (closedA.chans 1).cap ∧
      dispatch closedA hello 7 ["a", "b"] = .error .sendOnClosedChannel ∧
      dispatch closedA hello 7 ["b", "a"] = .error .sendOnClosedChannel := by
  refine ⟨rfl, isTraversal_usersAB closedA rfl, rfl, rfl, by decide, rfl, rfl⟩

/-- C2 (as amended): when no registered mailbox is closed, the broadcast step
completes for every visiting order; every full mailbox is left exactly as it
was, and every registered mailbox with room still gets the message, however
many mailboxes are full. -/
theorem C2_full_mailbox_dropped_others_served (b : Broker) (msg : Message) (now : Int)
    (order : List String) (hb : msg.Broadcast = true) (ht : IsTraversal b order)
    (hc : NoClosedMailbox b) :
    ∃ b1, dispatch b msg now order = .ok b1 ∧
      (∀ r, (b.chans r).cap ≤ (b.chans r).buf.length → b1.chans r = b.chans r) ∧
      (∀ id r, b.users id = some (some r) → (b.chans r).buf.length < (b.chans r).cap →
        ∃ k, 1 ≤ k ∧ (b1.chans r).buf = (b.chans r).buf ++ List.replicate k (stamp msg now)) := by
  obtain ⟨c1, h1, h2⟩ := dispatch_broadcast_ok b msg now order hb hc
  refine ⟨_, h2, ?_, ?_⟩
  · intro r hfull
    exact broadcastLoop_full b.users _ order _ _ h1 r hfull
  · intro id r hu hroom
    have hm : id ∈ order := (ht.2 id).mpr (by rw [hu]; simp)
    exact broadcastLoop_delivers b.users _ order id r hu _ _ h1 hm hroom

/-- C2 at a concrete registry: the full mailbox of `"a"` keeps its one message and
`"b"` gets the broadcast. -/
theorem C2_witness_full_and_empty :
    hello.Broadcast = true ∧ IsTraversal fullA ["a", "b"] ∧ NoClosedMailbox fullA ∧
      ∃ b1, dispatch fullA hello 7 ["a", "b"] = .ok b1 ∧
        b1.chans 0 = fullA.chans 0 ∧
        ∃ k, 1 ≤ k ∧ (b1.chans 1).buf = List.replicate k { hello with Timestamp := 7 } := by
  have hnc : NoClosedMailbox fullA := by
    intro id r _
    simp only [fullA, freshChan]
    split_ifs <;> rfl
  obtain ⟨b1, h1, h2, h3⟩ :=
    C2_full_mailbox_dropped_others_served fullA hello 7 ["a", "b"] rfl
      (isTraversal_usersAB fullA rfl) hnc
  refine ⟨rfl, isTraversal_usersAB fullA rfl, hnc, b1, h1, h2 0 (by decide), ?_⟩
  obtain ⟨k, hk, hbuf⟩ := h3 "b" 1 rfl (by decide)
  exact ⟨k, hk, by simpa [fullA, freshChan, stamp, hello] using hbuf⟩

/-- C2 fails as stated: with the mailbox of `"b"` closed, the broadcast step panics
on the send to it after dropping the message for the full mailbox of `"a"`;
`"c"`, whose mailbox is open and empty, gets nothing. -/
theorem C2_counterexample_closed_mailbox :
    hello.Broadcast = true ∧ IsTraversal fullAclosedB ["a", "b", "c"] ∧
      fullAclosedB.users "c" = some (some 2) ∧
      (fullAclosedB.chans 2).closed = false ∧
      (fullAclosedB.chans 2).buf.length < (fullAclosedB.chans 2).cap ∧
      dispatch fullAclosedB hello 7 ["a", "b", "c"] = .error .sendOnClosedChannel := by
  refine ⟨rfl, isTraversal_usersABC fullAclosedB rfl, rfl, rfl, by decide, rfl⟩

/-! ## Dispatch of a unicast message, and what any dispatch step leaves alone -/

theorem dispatch_unicast_eq (b : Broker) (msg : Message) (now : Int) (order : List String)
    (hb : msg.Broadcast = false) :
    dispatch b msg now order = sendPrivateMessage b (stamp msg now) := by
  simp [dispatch, stamp_Broadcast, hb]

theorem dispatch_frame (b b1 : Broker) (msg : Message) (now : Int) (order : List String)
    (hd : dispatch b msg now order = .ok b1) :
    b1.ctx = b.ctx ∧ b1.input = b.input ∧ b1.users = b.users ∧ b1.done = b.done ∧
      ∀ r, (b1.chans r).cap = (b.chans r).cap ∧ (b1.chans r).closed = (b.chans r).closed ∧
        ∃ k, (b1.chans r).buf = (b.chans r).buf ++ List.replicate k (stamp msg now) := by
  unfold dispatch at hd
  split_ifs at hd
  · unfold broadcastMessage at hd
    cases hl : broadcastLoop b.users (stamp msg now) order b.chans with
    | error p => rw [hl] at hd; cases hd
    | ok c1 =>
      rw [hl] at hd
      simp only [Except.ok.injEq] at hd
      subst hd
      exact ⟨rfl, rfl, rfl, rfl, broadcastLoop_frame _ _ _ _ _ hl⟩
  · unfold sendPrivateMessage at hd
    cases hu : b.users (stamp msg now).Recipient with
    | none =>
      rw [hu] at hd
      simp only [Except.ok.injEq] at hd
      subst hd
      exact ⟨rfl, rfl, rfl, rfl, fun r => ⟨rfl, rfl, 0, by simp⟩⟩
    | some h =>
      simp only [hu] at hd
      cases hs : trySend b.chans h (stamp msg now) with
      | error p => rw [hs] at hd; cases hd
      | ok c1 =>
        rw [hs] at hd
        simp only [Except.ok.injEq] at hd
        subst hd
        exact ⟨rfl, rfl, rfl, rfl, trySend_frame _ _ _ _ hs⟩

theorem dispatch_unicast_room (b : Broker) (msg : Message) (now : Int) (order : List String)
    (r : Nat) (hb : msg.Broadcast = false) (hu : b.users msg.Recipient = some (some r))
    (ho : (b.chans r).closed = false) (hroom : (b.chans r).buf.length < (b.chans r).cap) :
    ∃ b1, dispatch b msg now order = .ok b1 ∧
      (b1.chans r).buf = (b.chans r).buf ++ [stamp msg now] ∧
      (b1.chans r).cap = (b.chans r).cap ∧ (b1.chans r).closed = false ∧
      b1.users = b.users ∧ b1.ctx = b.ctx ∧ b1.input = b.input ∧
      ∀ q, q ≠ r → b1.chans q = b.chans q := by
  obtain ⟨c1, hs⟩ := trySend_ok b.chans (some r) (stamp msg now)
    (fun q hq => by cases hq; exact ho)
  have hd : dispatch b msg now order = .ok { b with chans := c1 } := by
    rw [dispatch_unicast_eq b msg now order hb]
    simp only [sendPrivateMessage, stamp_Recipient, hu, hs]
  have hq : ∀ q, q ≠ r → c1 q = b.chans q := fun q hq =>
    trySend_other _ _ _ _ hs q (fun e => hq (Option.some.inj e).symm)
  rw [trySend_room b.chans r _ ho hroom] at hs
  simp only [Except.ok.injEq] at hs
  subst hs
  exact ⟨_, hd, by simp, by simp, by simp [ho], rfl, rfl, rfl, hq⟩

theorem dispatch_unicast_full (b : Broker) (msg : Message) (now : Int) (order : List String)
    (r : Nat) (hb : msg.Broadcast = false) (hu : b.users msg.Recipient = some (some r))
    (ho : (b.chans r).closed = false) (hfull : (b.chans r).cap ≤ (b.chans r).buf.length) :
    dispatch b msg now order = .ok b := by
  rw [dispatch_unicast_eq b msg now order hb]
  have hn : ¬ (b.chans r).buf.length < (b.chans r).cap := by omega
  simp [sendPrivateMessage, stamp_Recipient, hu, trySend, ho, hn]

/-- C4: a unicast message to an identity that is not a key of the registry is
accepted by `SendMessage` with a nil error, and its dispatch step, taken directly
or as a pass of the routing loop, changes no mailbox and no registry entry. -/
theorem C4_unicast_to_absent_recipient_is_dropped (b : Broker) (msg : Message) (pick : Bool)
    (now : Int) (order : List String) (rest : List Message)
    (hctx : b.ctx = none) (hq : b.input.length < inputCap)
    (hb : msg.Broadcast = false) (hr : b.users msg.Recipient = none) :
    SendMessage b msg pick = .returned none { b with input := b.input ++ [msg] } ∧
      dispatch b msg now order = .ok b ∧
      RunStep { b with input := msg :: rest } now order pick =
        .continued { b with input := rest } := by
  have hd : ∀ b0 : Broker, b0.users = b.users → dispatch b0 msg now order = .ok b0 := by
    intro b0 h0
    rw [dispatch_unicast_eq b0 msg now order hb]
    simp [sendPrivateMessage, stamp_Recipient, h0, hr]
  refine ⟨?_, hd b rfl, ?_⟩
  · simp [SendMessage, hctx, hq]
  · have h2 := hd { b with input := rest } rfl
    simp only [hctx] at h2
    simp [RunStep, hctx, h2]

/-- C4 at a concrete registry: nobody is registered as `"zed"`. -/
theorem C4_witness_stray_message :
    openAB.ctx = none ∧ openAB.input.length < inputCap ∧ stray.Broadcast = false ∧
      openAB.users stray.Recipient = none ∧
      SendMessage openAB stray true = .returned none { openAB with input := [stray] } ∧
      dispatch openAB stray 7 ["a", "b"] = .ok openAB := by
  obtain ⟨h1, h2, _⟩ :=
    C4_unicast_to_absent_recipient_is_dropped openAB stray true 7 ["a", "b"] []
      rfl (by decide) rfl rfl
  exact ⟨rfl, by decide, rfl, rfl, h1, h2⟩

/-- C5 (as amended): for a unicast message whose recipient is registered with a
mailbox that is not closed, the dispatch step completes, leaves the registry
and every mailbox other than the recipient's exactly as they were, appends the
message to the recipient's mailbox when it has room and leaves that mailbox
unchanged when it is full. -/
theorem C5_unicast_touches_only_recipient (b : Broker) (msg : Message) (now : Int)
    (order : List String) (h : Handle)
    (hb : msg.Broadcast = false) (hu : b.users msg.Recipient = some h)
    (ho : ∀ r, h = some r → (b.chans r).closed = false) :
    ∃ b1, dispatch b msg now order = .ok b1 ∧ b1.users = b.users ∧
      (∀ r, h ≠ some r → b1.chans r = b.chans r) ∧
      (∀ r, h = some r → (b.chans r).buf.length < (b.chans r).cap →
        b1.chans r = { b.chans r with buf := (b.chans r).buf ++ [stamp msg now] }) ∧
      (∀ r, h = some r → (b.chans r).cap ≤ (b.chans r).buf.length →
        b1.chans r = b.chans r) := by
  obtain ⟨c1, hs⟩ := trySend_ok b.chans h (stamp msg now) ho
  have hd : dispatch b msg now order = .ok { b with chans := c1 } := by
    rw [dispatch_unicast_eq b msg now order hb]
    simp [sendPrivateMessage, stamp_Recipient, hu, hs]
  refine ⟨_, hd, rfl, ?_, ?_, ?_⟩
  · intro r hne
    exact trySend_other _ _ _ _ hs r hne
  · intro r hr hroom
    subst hr
    rw [trySend_room b.chans r _ (ho r rfl) hroom] at hs
    simp only [Except.ok.injEq] at hs
    subst hs
    simp
  · intro r _ hfull
    exact trySend_full _ _ _ _ hs r hfull

/-- C5 at a concrete registry: a note for `"a"` lands in the mailbox of `"a"` and the
mailbox of `"b"` stays empty. -/
theorem C5_witness_note_for_a :
    note.Broadcast = false ∧ openAB.users note.Recipient = some (some 0) ∧
      (openAB.chans 0).closed = false ∧
      ∃ b1, dispatch openAB note 7 [] = .ok b1 ∧
        (b1.chans 0).buf = [{ note with Timestamp := 7 }] ∧ (b1.chans 1).buf = [] := by
  obtain ⟨b1, h1, _, h2, h3, _⟩ :=
    C5_unicast_touches_only_recipient openAB note 7 [] (some 0) rfl rfl
      (fun r _ => rfl)
  refine ⟨rfl, rfl, rfl, b1, h1, ?_, ?_⟩
  · rw [h3 0 rfl (by decide)]
    rfl
  · rw [h2 1 (by decide)]
    rfl

/-- C5 fails as stated: the recipient `"a"` is registered and its mailbox has room,
but the mailbox is closed, so the dispatch step panics instead of appending. -/
theorem C5_counterexample_closed_recipient :
    note.Broadcast = false ∧ closedA.users note.Recipient = some (some 0) ∧
      (closedA.chans 0).buf.length < (closedA.chans 0).cap ∧
      dispatch closedA note 7 ["a", "b"] = .error .sendOnClosedChannel := by
  refine ⟨rfl, rfl, by decide, rfl⟩

/-! ## Timestamps -/

theorem SendMessage_accepted (b b1 : Broker) (msg : Message) (pick : Bool)
    (hs : SendMessage b msg pick = .returned none b1) :
    b1 = { b with input := b.input ++ [msg] } := by
  unfold SendMessage at hs
  split at hs
  · simp only [SendOutcome.returned.injEq, true_and] at hs
    exact hs.symm
  · split_ifs at hs
    · simp only [SendOutcome.returned.injEq, true_and] at hs
      exact hs.symm
    · simp at hs
  · simp at hs
  · cases hs

/-- C6: a message sent with a non-zero timestamp is queued as it is, and every copy
that a dispatch step (broadcast or unicast) adds to any mailbox is the message
itself, so it carries that timestamp whatever the clock reads; such a copy does
reach the open mailbox with room of a unicast recipient and, when no registered
mailbox is closed, of every subscriber of a broadcast. -/
theorem C6_preset_timestamp_is_kept (b : Broker) (msg : Message) (now : Int)
    (order : List String) (hts : msg.Timestamp ≠ 0) :
    (stamp msg now).Timestamp = msg.Timestamp ∧
      (∀ pick b1, SendMessage b msg pick = .returned none b1 → b1.input = b.input ++ [msg]) ∧
      (∀ b1, dispatch b msg now order = .ok b1 →
        ∀ r, ∃ k, (b1.chans r).buf = (b.chans r).buf ++ List.replicate k msg) ∧
      (∀ r, msg.Broadcast = false → b.users msg.Recipient = some (some r) →
        (b.chans r).closed = false → (b.chans r).buf.length < (b.chans r).cap →
        ∃ b1, dispatch b msg now order = .ok b1 ∧
          (b1.chans r).buf = (b.chans r).buf ++ [msg]) ∧
      (msg.Broadcast = true → IsTraversal b order → NoClosedMailbox b →
        ∃ b1, dispatch b msg now order = .ok b1 ∧
          ∀ id r, b.users id = some (some r) → (b.chans r).buf.length < (b.chans r).cap →
            ∃ k, 1 ≤ k ∧ (b1.chans r).buf = (b.chans r).buf ++ List.replicate k msg) := by
  have hst : stamp msg now = msg := by simp [stamp, hts]
  refine ⟨by rw [hst], ?_, ?_, ?_, ?_⟩
  · intro pick b1 hs
    rw [SendMessage_accepted b b1 msg pick hs]
  · intro b1 hd r
    obtain ⟨k, hk⟩ := ((dispatch_frame b b1 msg now order hd).2.2.2.2 r).2.2
    exact ⟨k, by rw [hk, hst]⟩
  · intro r hb hu ho hroom
    obtain ⟨b1, hd, hbuf, _⟩ := dispatch_unicast_room b msg now order r hb hu ho hroom
    exact ⟨b1, hd, by rw [hbuf, hst]⟩
  · intro hb ht hc
    obtain ⟨c1, h1, h2⟩ := dispatch_broadcast_ok b msg now order hb hc
    refine ⟨_, h2, ?_⟩
    intro id r hu hroom
    have hm : id ∈ order := (ht.2 id).mpr (by rw [hu]; simp)
    rw [hst] at h1
    exact broadcastLoop_delivers b.users _ order id r hu _ _ h1 hm hroom

/-- C6 at a concrete registry: the note dated 42 reaches `"a"` dated 42 although the
clock reads 7. -/
theorem C6_witness_dated_note :
    datedNote.Timestamp ≠ 0 ∧
      ∃ b1, dispatch openAB datedNote 7 [] = .ok b1 ∧ (b1.chans 0).buf = [datedNote] ∧
        (stamp datedNote 7).Timestamp = 42 := by
  obtain ⟨h1, _, _, h2, _⟩ := C6_preset_timestamp_is_kept openAB datedNote 7 [] (by decide)
  obtain ⟨b1, hd, hbuf⟩ := h2 0 rfl rfl rfl (by decide)
  exact ⟨by decide, b1, hd, hbuf, h1⟩

/-- C7: a message sent with timestamp 0 is queued with timestamp 0, whenever
`SendMessage` accepts it and in particular when the broker is not cancelled and
the queue has room; every copy a dispatch step adds to a mailbox carries the
clock reading taken at dispatch, which is positive when that reading is; such a
copy does reach the open mailbox with room of a unicast recipient and, when no
registered mailbox is closed, of every subscriber of a broadcast. -/
theorem C7_unset_timestamp_assigned_at_dispatch (b : Broker) (msg : Message) (now : Int)
    (order : List String) (hts : msg.Timestamp = 0) :
    (∀ pick b1, SendMessage b msg pick = .returned none b1 →
        ∃ m, b1.input = b.input ++ [m] ∧ m = msg ∧ m.Timestamp = 0) ∧
      (∀ pick, b.ctx = none → b.input.length < inputCap →
        SendMessage b msg pick = .returned none { b with input := b.input ++ [msg] }) ∧
      (∀ b1, dispatch b msg now order = .ok b1 →
        ∀ r, ∃ k, (b1.chans r).buf =
          (b.chans r).buf ++ List.replicate k { msg with Timestamp := now }) ∧
      (∀ r, msg.Broadcast = false → b.users msg.Recipient = some (some r) →
        (b.chans r).closed = false → (b.chans r).buf.length < (b.chans r).cap →
        ∃ b1, dispatch b msg now order = .ok b1 ∧
          (b1.chans r).buf = (b.chans r).buf ++ [{ msg with Timestamp := now }]) ∧
      (msg.Broadcast = true → IsTraversal b order → NoClosedMailbox b →
        ∃ b1, dispatch b msg now order = .ok b1 ∧
          ∀ id r, b.users id = some (some r) → (b.chans r).buf.length < (b.chans r).cap →
            ∃ k, 1 ≤ k ∧ (b1.chans r).buf =
              (b.chans r).buf ++ List.replicate k { msg with Timestamp := now }) ∧
      (0 < now → 0 < ({ msg with Timestamp := now } : Message).Timestamp) := by
  have hst : stamp msg now = { msg with Timestamp := now } := by simp [stamp, hts]
  refine ⟨?_, ?_, ?_, ?_, ?_, fun h => h⟩
  · intro pick b1 hs
    exact ⟨msg, by rw [SendMessage_accepted b b1 msg pick hs], rfl, hts⟩
  · intro pick hctx hq
    simp [SendMessage, hctx, hq]
  · intro b1 hd r
    obtain ⟨k, hk⟩ := ((dispatch_frame b b1 msg now order hd).2.2.2.2 r).2.2
    exact ⟨k, by rw [hk, hst]⟩
  · intro r hb hu ho hroom
    obtain ⟨b1, hd, hbuf, _⟩ := dispatch_unicast_room b msg now order r hb hu ho hroom
    exact ⟨b1, hd, by rw [hbuf, hst]⟩
  · intro hb ht hc
    obtain ⟨c1, h1, h2⟩ := dispatch_broadcast_ok b msg now order hb hc
    refine ⟨_, h2, ?_⟩
    intro id r hu hroom
    have hm : id ∈ order := (ht.2 id).mpr (by rw [hu]; simp)
    rw [hst] at h1
    exact broadcastLoop_delivers b.users _ order id r hu _ _ h1 hm hroom

/-- C7 at a concrete registry: the undated note is queued undated and reaches `"a"`
dated 7, the clock reading at dispatch. -/
theorem C7_witness_undated_note :
    note.Timestamp = 0 ∧
      SendMessage openAB note true = .returned none { openAB with input := [note] } ∧
      ∃ b1, dispatch openAB note 7 [] = .ok b1 ∧
        (b1.chans 0).buf = [{ note with Timestamp := 7 }] := by
  obtain ⟨_, h1, _, h2, _, _⟩ := C7_unset_timestamp_assigned_at_dispatch openAB note 7 [] rfl
  obtain ⟨b1, hd, hbuf⟩ := h2 0 rfl rfl rfl (by decide)
  exact ⟨rfl, h1 true rfl (by decide), b1, hd, hbuf⟩

/-! ## Registry mutation -/

theorem UnregisterUser_absent (b : Broker) (id : String) (hu : b.users id = none) :
    UnregisterUser b id = .ok b := by
  have h : Function.update b.users id none = b.users := by
    rw [← hu]
    exact Function.update_eq_self id b.users
  simp [UnregisterUser, hu, h]

theorem UnregisterUser_removes (b b1 : Broker) (id : String)
    (hs : UnregisterUser b id = .ok b1) :
    b1.users = Function.update b.users id none ∧ b1.ctx = b.ctx ∧ b1.input = b.input ∧
      b1.done = b.done := by
  unfold UnregisterUser at hs
  cases hu : b.users id with
  | none =>
    simp only [hu, Except.ok.injEq] at hs
    subst hs
    exact ⟨rfl, rfl, rfl, rfl⟩
  | some h =>
    simp only [hu] at hs
    cases hc : closeUnlessReady b.chans h with
    | error p => rw [hc] at hs; cases hs
    | ok c1 =>
      rw [hc] at hs
      simp only [Except.ok.injEq] at hs
      subst hs
      exact ⟨rfl, rfl, rfl, rfl⟩

theorem UnregisterUser_ok (b : Broker) (id : String) (r : Nat)
    (hu : b.users id = some (some r)) :
    ∃ b1, UnregisterUser b id = .ok b1 := by
  unfold UnregisterUser
  simp only [hu, closeUnlessReady]
  cases hbuf : (b.chans r).buf with
  | nil =>
    by_cases hc : (b.chans r).closed = true
    · exact ⟨_, by simp only [hc, if_true]; rfl⟩
    · exact ⟨_, by simp only [hc]; rfl⟩
  | cons m rest => exact ⟨_, rfl⟩

/-- An open mailbox with nothing pending is closed by `UnregisterUser`, and its
identity leaves the registry. -/
theorem UnregisterUser_closes_empty (b : Broker) (id : String) (r : Nat)
    (hu : b.users id = some (some r)) (ho : (b.chans r).closed = false)
    (he : (b.chans r).buf = []) :
    ∃ b1, UnregisterUser b id = .ok b1 ∧ (b1.chans r).closed = true ∧
      (b1.chans r).buf = [] ∧ b1.users id = none := by
  refine ⟨_, by simp only [UnregisterUser, hu, closeUnlessReady, he, ho]; rfl, ?_, ?_, ?_⟩
  · simp
  · simp [he]
  · simp

/-- C8, the code at a failing input: `"a"` is registered with an open mailbox that
holds one unread message.  `UnregisterUser` takes that message out of the
mailbox and leaves the mailbox open; only the registry entry is removed. -/
theorem C8_unregister_leaves_pending_mailbox_open :
    pendingA.users "a" = some (some 0) ∧ (pendingA.chans 0).closed = false ∧
      (pendingA.chans 0).buf = [datedNote] ∧
      ∃ b1, UnregisterUser pendingA "a" = .ok b1 ∧ (b1.chans 0).closed = false ∧
        (b1.chans 0).buf = [] ∧ b1.users "a" = none := by
  refine ⟨rfl, rfl, rfl, _, rfl, rfl, rfl, rfl⟩

/-- C9 fails as stated: `RegisterUser` accepts the nil channel, and for an identity
registered with it `UnregisterUser` panics.  A nil channel is never ready to be
received from, so the `select` takes its default arm and calls `close(ch)`. -/
theorem C9_counterexample_nil_mailbox :
    nilA.users "a" = some none ∧ UnregisterUser nilA "a" = .error .closeOfNilChannel :=
  ⟨rfl, rfl⟩

/-- C9 (as amended): for every identity that is not registered with the nil channel,
`UnregisterUser` returns without a panic, the identity is absent afterwards, and
a second call returns the state of the first.  On an identity that is not
registered the whole state is unchanged.  On an identity whose mailbox is
already closed the call returns and the mailbox stays closed.  On an identity
registered with the nil channel the call panics.  Whenever a call returns, a
second call returns the same state. -/
theorem C9_unregister_idempotent_unless_nil (b : Broker) (id : String) :
    (b.users id ≠ some none →
        ∃ b1, UnregisterUser b id = .ok b1 ∧ b1.users id = none ∧
          UnregisterUser b1 id = .ok b1) ∧
      (b.users id = none → UnregisterUser b id = .ok b) ∧
      (∀ r, b.users id = some (some r) → (b.chans r).closed = true →
        ∃ b1, UnregisterUser b id = .ok b1 ∧ b1.users id = none ∧
          (b1.chans r).closed = true) ∧
      (b.users id = some none → UnregisterUser b id = .error .closeOfNilChannel) ∧
      (∀ b1, UnregisterUser b id = .ok b1 → UnregisterUser b1 id = .ok b1) := by
  have hidem : ∀ b1, UnregisterUser b id = .ok b1 →
      b1.users id = none ∧ UnregisterUser b1 id = .ok b1 := by
    intro b1 hs
    have hn : b1.users id = none := by
      rw [(UnregisterUser_removes b b1 id hs).1]
      exact Function.update_same id none b.users
    exact ⟨hn, UnregisterUser_absent b1 id hn⟩
  refine ⟨?_, UnregisterUser_absent b id, ?_, ?_, fun b1 hs => (hidem b1 hs).2⟩
  · intro hne
    cases hu : b.users id with
    | none => exact ⟨b, UnregisterUser_absent b id hu, hu, UnregisterUser_absent b id hu⟩
    | some h =>
      cases h with
      | none => exact absurd hu hne
      | some r =>
        obtain ⟨b1, hs⟩ := UnregisterUser_ok b id r hu
        exact ⟨b1, hs, hidem b1 hs⟩
  · intro r hu hcl
    obtain ⟨b1, hs⟩ := UnregisterUser_ok b id r hu
    refine ⟨b1, hs, (hidem b1 hs).1, ?_⟩
    unfold UnregisterUser at hs
    simp only [hu, closeUnlessReady] at hs
    cases hbuf : (b.chans r).buf with
    | nil =>
      rw [hbuf] at hs
      simp only [hcl, if_true, Except.ok.injEq] at hs
      rw [← hs]
      exact hcl
    | cons m0 rest =>
      rw [hbuf] at hs
      simp only [Except.ok.injEq] at hs
      rw [← hs]
      simp [hcl]
  · intro hu
    simp [UnregisterUser, hu, closeUnlessReady]

/-- C9 at concrete registries: unregistering `"a"`, whose mailbox is already closed,
returns and leaves the mailbox closed; unregistering the unknown `"zed"`
returns the same state; unregistering `"a"` a second time changes nothing. -/
theorem C9_witness_closed_and_absent :
    closedOnlyA.users "a" = some (some 0) ∧ (closedOnlyA.chans 0).closed = true ∧
      (∃ b1, UnregisterUser closedOnlyA "a" = .ok b1 ∧ b1.users "a" = none ∧
        (b1.chans 0).closed = true) ∧
      (∃ b1, UnregisterUser closedOnlyA "a" = .ok b1 ∧ b1.users "a" = none ∧
        UnregisterUser b1 "a" = .ok b1) ∧
      openAB.users "zed" = none ∧ UnregisterUser openAB "zed" = .ok openAB :=
  ⟨rfl, rfl, (C9_unregister_idempotent_unless_nil closedOnlyA "a").2.2.1 0 rfl rfl,
    (C9_unregister_idempotent_unless_nil closedOnlyA "a").1 (by decide), rfl,
    (C9_unregister_idempotent_unless_nil openAB "zed").2.1 rfl⟩

/-- C10: `RegisterUser` always returns; afterwards the registry maps the identity to
the given mailbox handle, every other entry is what it was, an identity has at
most one handle, and nothing else of the broker changes.  The identity is not
inspected: the empty identity is registered like any other. -/
theorem C10_register_inserts_or_replaces (b : Broker) (id : String) (m : Handle) :
    (RegisterUser b id m).users id = some m ∧
      (∀ id1, id1 ≠ id → (RegisterUser b id m).users id1 = b.users id1) ∧
      (∀ id1 h1 h2, (RegisterUser b id m).users id1 = some h1 →
        (RegisterUser b id m).users id1 = some h2 → h1 = h2) ∧
      (RegisterUser b id m).chans = b.chans ∧ (RegisterUser b id m).input = b.input ∧
      (RegisterUser b id m).ctx = b.ctx ∧ (RegisterUser b id m).done = b.done ∧
      (RegisterUser b "" m).users "" = some m := by
  refine ⟨?_, ?_, ?_, rfl, rfl, rfl, rfl, ?_⟩
  · simp [RegisterUser]
  · intro id1 hne
    simp [RegisterUser, Function.update_noteq hne]
  · intro id1 h1 h2 e1 e2
    rw [e1] at e2
    exact Option.some.inj e2
  · simp [RegisterUser]

/-! ## A mailbox that is never drained -/

theorem RunStep_idle (b : Broker) (now : Int) (order : List String) (pick : Bool)
    (hctx : b.ctx = none) (hinp : b.input = []) :
    RunStep b now order pick = .waiting := by
  obtain ⟨ctx, input, users, done, chans⟩ := b
  simp only at hctx hinp
  subst hctx hinp
  rfl

theorem RunStep_live (b : Broker) (m : Message) (rest : List Message) (now : Int)
    (order : List String) (pick : Bool) (hctx : b.ctx = none) (hinp : b.input = m :: rest) :
    RunStep b now order pick =
      match dispatch { b with input := rest } m now order with
      | .ok b1 => .continued b1
      | .error p => .panicked p (afterPanic { b with input := rest } m now order) := by
  obtain ⟨ctx, input, users, done, chans⟩ := b
  simp only at hctx hinp
  subst hctx hinp
  rfl

theorem play_undrained (a : String) (r c : Nat) (evs : List Event) :
    ∀ (b : Broker) (D : List Message), b.ctx = none → b.done = false →
      b.users a = some (some r) → (b.chans r).cap = c → (b.chans r).closed = false →
      (∀ m ∈ b.input, m.Broadcast = false ∧ m.Recipient = a) →
      (∀ m ∈ sent evs, m.Broadcast = false ∧ m.Recipient = a) →
      List.Forall₂ Stamped (b.chans r).buf (D.take c) →
      (play b evs = .error .sendBlocked ∨
        ∃ errs b1, play b evs = .ok (errs, b1) ∧
          errs = List.replicate (sent evs).length none ∧
          ∃ D1, D ++ b.input ++ sent evs = D1 ++ b1.input ∧
            List.Forall₂ Stamped (b1.chans r).buf (D1.take c)) ∧
      (b.input.length + (sent evs).length ≤ inputCap → play b evs ≠ .error .sendBlocked) := by
  induction evs with
  | nil =>
    intro b D _ _ _ _ _ _ _ hF
    refine ⟨Or.inr ⟨[], b, rfl, rfl, D, by simp [sent], hF⟩, ?_⟩
    intro _ h
    simp [play] at h
  | cons ev evs ih =>
    intro b D hctx hdone hu hcap hopen hin hsent hF
    cases ev with
    | send msg pick =>
      have hm : msg.Broadcast = false ∧ msg.Recipient = a :=
        hsent msg (by simp [sent])
      have hsent1 : ∀ m ∈ sent evs, m.Broadcast = false ∧ m.Recipient = a :=
        fun m h => hsent m (by simp [sent, h])
      by_cases hq : b.input.length < inputCap
      · have hs : SendMessage b msg pick = .returned none { b with input := b.input ++ [msg] } := by
          simp [SendMessage, hctx, hq]
        have hin1 : ∀ m ∈ b.input ++ [msg], m.Broadcast = false ∧ m.Recipient = a := by
          intro m h
          rcases List.mem_append.mp h with h | h
          · exact hin m h
          · rw [List.mem_singleton.mp h]; exact hm
        obtain ⟨h1, h2⟩ := ih { b with input := b.input ++ [msg] } D hctx hdone hu hcap hopen
          hin1 hsent1 hF
        constructor
        · rcases h1 with h1 | ⟨errs, b1, hp, herr, D1, hD, hF1⟩
          · left
            simp only [play, hs, h1]
          · right
            refine ⟨none :: errs, b1, by simp only [play, hs, hp], ?_, D1, ?_, hF1⟩
            · simp [sent, herr, List.replicate_succ]
            · rw [← hD]
              simp [sent]
        · intro hle hblk
          apply h2
          · simp only [List.length_append, List.length_singleton]
            simp only [sent, List.length_cons] at hle
            omega
          · simp only [play, hs] at hblk
            cases hp : play { b with input := b.input ++ [msg] } evs with
            | error e =>
              rw [hp] at hblk
              simp only [Except.error.injEq] at hblk
              rw [hblk]
            | ok v => rw [hp] at hblk; cases hblk
      · have hs : SendMessage b msg pick = .blocked := by
          simp [SendMessage, hctx, hq]
        constructor
        · left
          simp only [play, hs]
        · intro hle
          simp only [sent, List.length_cons] at hle
          omega
    | pass now order pick =>
      have hsent1 : ∀ m ∈ sent evs, m.Broadcast = false ∧ m.Recipient = a :=
        fun m h => hsent m (by simpa [sent] using h)
      cases hinp : b.input with
      | nil =>
        have hp : play b (.pass now order pick :: evs) = play b evs := by
          simp [play, hdone, RunStep_idle b now order pick hctx hinp]
        obtain ⟨h1, h2⟩ := ih b D hctx hdone hu hcap hopen hin hsent1 hF
        rw [hinp] at h1 h2
        rw [hp]
        refine ⟨?_, ?_⟩
        · simpa [sent] using h1
        · simpa [sent] using h2
      | cons m rest =>
        have hm : m.Broadcast = false ∧ m.Recipient = a := hin m (by simp [hinp])
        have hrest : ∀ x ∈ rest, x.Broadcast = false ∧ x.Recipient = a :=
          fun x h => hin x (by simp [hinp, h])
        have hlen := hF.length_eq
        -- the dispatch step of `m`
        have key : ∃ b1, dispatch { b with input := rest } m now order = .ok b1 ∧
            b1.ctx = none ∧ b1.done = false ∧ b1.input = rest ∧
            b1.users a = some (some r) ∧ (b1.chans r).cap = c ∧
            (b1.chans r).closed = false ∧
            List.Forall₂ Stamped (b1.chans r).buf ((D ++ [m]).take c) := by
          by_cases hroom : (b.chans r).buf.length < (b.chans r).cap
          · obtain ⟨b1, hd, hbuf, hcap1, hcl1, hu1, hctx1, hin1, _⟩ :=
              dispatch_unicast_room { b with input := rest } m now order r hm.1
                (by rw [hm.2]; exact hu) hopen hroom
            have hfr := dispatch_frame _ _ _ _ _ hd
            refine ⟨b1, hd, by rw [hctx1]; exact hctx, by rw [hfr.2.2.2.1]; exact hdone, hin1,
              by rw [hu1]; exact hu, by rw [hcap1]; exact hcap, hcl1, ?_⟩
            have hDlen : D.length < c := by
              rw [List.length_take] at hlen
              omega
            have hD : D.take c = D := List.take_of_length_le (by omega)
            have hD1 : (D ++ [m]).take c = D ++ [m] :=
              List.take_of_length_le (by simp; omega)
            rw [hbuf, hD1]
            rw [hD] at hF
            exact List.rel_append hF (List.Forall₂.cons ⟨now, rfl⟩ List.Forall₂.nil)
          · have hd := dispatch_unicast_full { b with input := rest } m now order r hm.1
              (by rw [hm.2]; exact hu) hopen (Nat.le_of_not_lt hroom)
            refine ⟨_, hd, hctx, hdone, rfl, hu, hcap, hopen, ?_⟩
            have hDlen : c ≤ D.length := by
              rw [List.length_take] at hlen
              omega
            rw [List.take_append_of_le_length hDlen]
            exact hF
        obtain ⟨b1, hd, hctx1, hdone1, hin1, hu1, hcap1, hcl1, hF1⟩ := key
        have hp : play b (.pass now order pick :: evs) = play b1 evs := by
          simp only [play]
          rw [if_neg (by rw [hdone]; decide), RunStep_live b m rest now order pick hctx hinp, hd]
        obtain ⟨h1, h2⟩ := ih b1 (D ++ [m]) hctx1 hdone1 hu1 hcap1 hcl1
          (by rw [hin1]; exact hrest) hsent1 hF1
        rw [hp]
        refine ⟨?_, ?_⟩
        · rcases h1 with h1 | ⟨errs, b2, hp2, herr, D1, hD, hF2⟩
          · exact Or.inl h1
          · refine Or.inr ⟨errs, b2, hp2, by simpa [sent] using herr, D1, ?_, hF2⟩
            rw [← hD, hin1]
            simp [sent]
        · intro hle
          apply h2
          rw [hin1]
          simp only [sent, List.length_cons] at hle
          omega

/-- A run in which at most `inputCap` messages are sent into an empty queue never
finds the queue full. -/
theorem play_never_blocks_within_cap (a : String) (r : Nat) (b : Broker) (evs : List Event)
    (hctx : b.ctx = none) (hdone : b.done = false) (hin : b.input = [])
    (hu : b.users a = some (some r)) (hopen : (b.chans r).closed = false)
    (hbuf : (b.chans r).buf = [])
    (haddr : ∀ m ∈ sent evs, m.Broadcast = false ∧ m.Recipient = a)
    (hfit : (sent evs).length ≤ inputCap) :
    play b evs ≠ .error .sendBlocked := by
  refine (play_undrained a r (b.chans r).cap evs b [] hctx hdone hu rfl hopen ?_ haddr ?_).2 ?_
  · intro m hm
    rw [hin] at hm
    cases hm
  · rw [hbuf]
    simp
  · rw [hin]
    simpa using hfit

/-- C3: subscriber `a` is registered with an empty, open mailbox of capacity `c`
that nobody reads; producers send unicast messages for `a` while the routing
loop makes its passes, in any interleaving in which no `SendMessage` call finds
the queue full.  Then the run completes without a panic, every `SendMessage`
call returns nil, and once all messages are dispatched the mailbox holds the
first `min n c` of the `n` sent messages, in send order, each with its timestamp
assigned; the others are not in the mailbox. -/
theorem C3_undrained_mailbox_keeps_first_messages (a : String) (r c : Nat) (b : Broker)
    (evs : List Event) (hctx : b.ctx = none) (hdone : b.done = false) (hin : b.input = [])
    (hu : b.users a = some (some r)) (hch : b.chans r = freshChan c)
    (haddr : ∀ m ∈ sent evs, m.Broadcast = false ∧ m.Recipient = a)
    (hacc : play b evs ≠ .error .sendBlocked) :
    ∃ errs b1, play b evs = .ok (errs, b1) ∧
      errs = List.replicate (sent evs).length none ∧
      (b1.input = [] →
        List.Forall₂ Stamped (b1.chans r).buf ((sent evs).take c) ∧
        (b1.chans r).buf.length = min (sent evs).length c) := by
  have h := (play_undrained a r c evs b [] hctx hdone hu (by rw [hch]; rfl)
    (by rw [hch]; rfl) (by intro m hm; rw [hin] at hm; cases hm) haddr
    (by rw [hch]; simp [freshChan])).1
  rcases h with h | ⟨errs, b1, hp, herr, D1, hD, hF⟩
  · exact absurd h hacc
  · refine ⟨errs, b1, hp, herr, ?_⟩
    intro hempty
    rw [hin, hempty] at hD
    simp only [List.nil_append, List.append_nil] at hD
    subst hD
    refine ⟨hF, ?_⟩
    rw [hF.length_eq, List.length_take, Nat.min_comm]

/-- C3 at capacity 1 with two messages: both `SendMessage` calls return nil, the
first note is in the mailbox of `"a"` and the second is not. -/
theorem C3_witness_capacity_one :
    openAB.ctx = none ∧ openAB.done = false ∧ openAB.input = [] ∧
      openAB.users "a" = some (some 0) ∧ openAB.chans 0 = freshChan 1 ∧
      sent twoNotes = [note, note2] ∧
      (∃ errs b1, play openAB twoNotes = .ok (errs, b1) ∧
        errs = List.replicate (sent twoNotes).length none ∧
        (b1.input = [] →
          List.Forall₂ Stamped (b1.chans 0).buf ((sent twoNotes).take 1) ∧
          (b1.chans 0).buf.length = min (sent twoNotes).length 1)) ∧
      ∃ b1, play openAB twoNotes = .ok ([none, none], b1) ∧ b1.input = [] ∧
        (b1.chans 0).buf = [{ note with Timestamp := 7 }] := by
  have hev : ∃ b1, play openAB twoNotes = .ok ([none, none], b1) ∧ b1.input = [] ∧
      (b1.chans 0).buf = [{ note with Timestamp := 7 }] := ⟨_, rfl, rfl, rfl⟩
  have haddr : ∀ m ∈ sent twoNotes, m.Broadcast = false ∧ m.Recipient = "a" := by
    intro m hm
    simp only [twoNotes, sent, List.mem_cons, List.mem_singleton, List.not_mem_nil,
      or_false] at hm
    rcases hm with rfl | rfl <;> exact ⟨rfl, rfl⟩
  have hacc : play openAB twoNotes ≠ .error .sendBlocked := by
    obtain ⟨b1, h1, _⟩ := hev
    rw [h1]
    intro h
    cases h
  exact ⟨rfl, rfl, rfl, rfl, rfl, rfl,
    C3_undrained_mailbox_keeps_first_messages "a" 0 1 openAB twoNotes rfl rfl rfl rfl rfl
      haddr hacc, hev⟩

/-! ## Re-registration, the outcomes of `SendMessage`, and the `done` signal -/

theorem dispatch_unicast_other (b b1 : Broker) (msg : Message) (now : Int)
    (order : List String) (hb : msg.Broadcast = false)
    (hd : dispatch b msg now order = .ok b1) (r : Nat)
    (hr : b.users msg.Recipient ≠ some (some r)) :
    b1.chans r = b.chans r := by
  rw [dispatch_unicast_eq b msg now order hb] at hd
  unfold sendPrivateMessage at hd
  rw [stamp_Recipient] at hd
  cases hu : b.users msg.Recipient with
  | none =>
    simp only [hu, Except.ok.injEq] at hd
    subst hd
    rfl
  | some h =>
    simp only [hu] at hd
    cases hs : trySend b.chans h (stamp msg now) with
    | error p => rw [hs] at hd; cases hd
    | ok c1 =>
      rw [hs] at hd
      simp only [Except.ok.injEq] at hd
      subst hd
      exact trySend_other _ _ _ _ hs r (fun e => hr (by rw [hu, e]))

/-- C11: when `id` is registered with mailbox `m1`, `RegisterUser(id, m2)` changes no
channel at all, so `m1` is as open as it was and holds what it held, and the
registry maps `id` to `m2`; a unicast dispatch for `id` afterwards changes no
mailbox other than `m2`, and it appends to `m2` when `m2` is open and has room,
leaving `m1` untouched when `m1` is another mailbox. -/
theorem C11_reregister_keeps_old_mailbox (b : Broker) (id : String) (m1 m2 : Handle)
    (_h1 : b.users id = some m1) :
    (RegisterUser b id m2).chans = b.chans ∧
      (∀ r1, m1 = some r1 → (RegisterUser b id m2).chans r1 = b.chans r1) ∧
      (RegisterUser b id m2).users id = some m2 ∧
      (∀ msg now order b1, msg.Broadcast = false → msg.Recipient = id →
        dispatch (RegisterUser b id m2) msg now order = .ok b1 →
        ∀ r, m2 ≠ some r → b1.chans r = b.chans r) ∧
      (∀ msg now order r, msg.Broadcast = false → msg.Recipient = id → m2 = some r →
        (b.chans r).closed = false → (b.chans r).buf.length < (b.chans r).cap →
        ∃ b1, dispatch (RegisterUser b id m2) msg now order = .ok b1 ∧
          (b1.chans r).buf = (b.chans r).buf ++ [stamp msg now] ∧
          ∀ r1, m1 = some r1 → r1 ≠ r → b1.chans r1 = b.chans r1) := by
  have hreg : (RegisterUser b id m2).users id = some m2 := by simp [RegisterUser]
  refine ⟨rfl, fun _ _ => rfl, hreg, ?_, ?_⟩
  · intro msg now order b1 hb hrec hd r hne
    exact dispatch_unicast_other _ b1 msg now order hb hd r
      (by rw [hrec, hreg]; exact fun e => hne (Option.some.inj e))
  · intro msg now order r hb hrec hm2 ho hroom
    obtain ⟨b1, hd, hbuf, _, _, _, _, _, hoth⟩ :=
      dispatch_unicast_room (RegisterUser b id m2) msg now order r hb
        (by rw [hrec, hreg, hm2]) ho hroom
    exact ⟨b1, hd, hbuf, fun r1 _ hne => hoth r1 hne⟩

/-- C11 at a concrete registry: `"a"` moves from mailbox 0 to mailbox 2; a note for
`"a"` then lands in mailbox 2 and mailbox 0 stays open and empty. -/
theorem C11_witness_a_moves :
    openAB.users "a" = some (some 0) ∧
      (RegisterUser openAB "a" (some 2)).chans 0 = freshChan 1 ∧
      ∃ b1, dispatch (RegisterUser openAB "a" (some 2)) note 7 [] = .ok b1 ∧
        (b1.chans 2).buf = [{ note with Timestamp := 7 }] ∧ b1.chans 0 = freshChan 1 := by
  obtain ⟨_, h2, _, _, h5⟩ :=
    C11_reregister_keeps_old_mailbox openAB "a" (some 0) (some 2) rfl
  obtain ⟨b1, hd, hbuf, hold⟩ := h5 note 7 [] 2 rfl rfl rfl rfl (by decide)
  exact ⟨rfl, h2 0 rfl, b1, hd, hbuf, hold 0 rfl (by decide)⟩

/-- C12: a call of `SendMessage` ends in one of two ways.  It returns nil with the
message appended, unchanged, at the tail of the queue, which needs a queue of
fewer than 100 items; or it returns the error of the context with the broker
unchanged, which needs the cancellation signal to have fired.  With room and a
live context it returns nil; with a full queue and the signal fired it returns
the error of the context.  While the queue is full and the signal has not
fired the caller stays suspended.  Which way the call ends does not depend on
the message. -/
theorem C12_sendMessage_outcomes (b : Broker) (msg : Message) (pick : Bool) :
    ((SendMessage b msg pick = .returned none { b with input := b.input ++ [msg] } ∧
          b.input.length < 100) ∨
        (∃ e, b.ctx = some e ∧ SendMessage b msg pick = .returned (some e) b) ∨
        (SendMessage b msg pick = .blocked ∧ b.ctx = none ∧ 100 ≤ b.input.length)) ∧
      (b.ctx = none → b.input.length < 100 →
        SendMessage b msg pick = .returned none { b with input := b.input ++ [msg] }) ∧
      (∀ e, b.ctx = some e → 100 ≤ b.input.length →
        SendMessage b msg pick = .returned (some e) b) ∧
      (∀ msg2 : Message,
        (SendMessage b msg pick = .returned none { b with input := b.input ++ [msg] } ↔
          SendMessage b msg2 pick = .returned none { b with input := b.input ++ [msg2] })) ∧
      inputCap = 100 := by
  have hcap : inputCap = 100 := rfl
  refine ⟨?_, ?_, ?_, ?_, rfl⟩
  · by_cases hq : b.input.length < 100
    · cases hc : b.ctx with
      | none => exact Or.inl ⟨by simp [SendMessage, hc, hcap, hq], hq⟩
      | some e =>
        cases pick with
        | true => exact Or.inl ⟨by simp [SendMessage, hc, hcap, hq], hq⟩
        | false => exact Or.inr (Or.inl ⟨e, rfl, by simp [SendMessage, hc, hcap, hq]⟩)
    · cases hc : b.ctx with
      | none => exact Or.inr (Or.inr ⟨by simp [SendMessage, hc, hcap, hq], rfl, by omega⟩)
      | some e => exact Or.inr (Or.inl ⟨e, rfl, by simp [SendMessage, hc, hcap, hq]⟩)
  · intro hc hq
    simp [SendMessage, hc, hcap, hq]
  · intro e hc hq
    have hq2 : ¬ b.input.length < 100 := by omega
    simp [SendMessage, hc, hcap, hq2]
  · intro msg2
    by_cases hq : b.input.length < 100
    · cases hc : b.ctx with
      | none => simp [SendMessage, hc, hcap, hq]
      | some e => cases pick <;> simp [SendMessage, hc, hcap, hq]
    · cases hc : b.ctx with
      | none => simp [SendMessage, hc, hcap, hq]
      | some e => simp [SendMessage, hc, hcap, hq]

/-- C12 at concrete brokers: accepted on a live broker with room, refused on a
stopped one when the runtime takes the cancellation arm. -/
theorem C12_witness_live_and_stopped :
    SendMessage openAB note true = .returned none { openAB with input := [note] } ∧
      SendMessage stoppedA note false = .returned (some .Canceled) stoppedA := by
  obtain ⟨_, h1, _, _, _⟩ := C12_sendMessage_outcomes openAB note true
  obtain ⟨h2, _, _, _, _⟩ := C12_sendMessage_outcomes stoppedA note false
  refine ⟨h1 rfl (by decide), ?_⟩
  rcases h2 with ⟨h, _⟩ | ⟨e, he, h⟩ | ⟨_, hc, _⟩
  · exact absurd h (by simp [SendMessage, stoppedA, inputCap])
  · have : e = .Canceled := by
      have h3 : stoppedA.ctx = some CtxErr.Canceled := rfl
      rw [h3] at he
      exact (Option.some.inj he).symm
    rw [this] at h
    exact h
  · cases hc

theorem SendMessage_frame (b b1 : Broker) (msg : Message) (pick : Bool) (err : Option CtxErr)
    (hs : SendMessage b msg pick = .returned err b1) :
    b1.ctx = b.ctx ∧ b1.users = b.users ∧ b1.done = b.done ∧ b1.chans = b.chans ∧
      (b1.input = b.input ∨ b1.input = b.input ++ [msg]) := by
  unfold SendMessage at hs
  split at hs
  · simp only [SendOutcome.returned.injEq] at hs
    obtain ⟨_, rfl⟩ := hs
    exact ⟨rfl, rfl, rfl, rfl, Or.inr rfl⟩
  · split_ifs at hs
    · simp only [SendOutcome.returned.injEq] at hs
      obtain ⟨_, rfl⟩ := hs
      exact ⟨rfl, rfl, rfl, rfl, Or.inr rfl⟩
    · simp only [SendOutcome.returned.injEq] at hs
      obtain ⟨_, rfl⟩ := hs
      exact ⟨rfl, rfl, rfl, rfl, Or.inl rfl⟩
  · simp only [SendOutcome.returned.injEq] at hs
    obtain ⟨_, rfl⟩ := hs
    exact ⟨rfl, rfl, rfl, rfl, Or.inl rfl⟩
  · cases hs

theorem RunStep_empty_cancelled (b : Broker) (e : CtxErr) (now : Int) (order : List String)
    (pick : Bool) (hctx : b.ctx = some e) (hinp : b.input = []) :
    RunStep b now order pick = .exited { b with done := true } := by
  obtain ⟨ctx, input, users, done, chans⟩ := b
  simp only at hctx hinp
  subst hctx hinp
  rfl

theorem RunStep_cancelled (b : Broker) (e : CtxErr) (m : Message) (rest : List Message)
    (now : Int) (order : List String) (pick : Bool) (hctx : b.ctx = some e)
    (hinp : b.input = m :: rest) :
    RunStep b now order pick =
      if pick then
        match dispatch { b with input := rest } m now order with
        | .ok b1 => .continued b1
        | .error p => .panicked p (afterPanic { b with input := rest } m now order)
      else .exited { b with done := true } := by
  obtain ⟨ctx, input, users, done, chans⟩ := b
  simp only at hctx hinp
  subst hctx hinp
  rfl

theorem RunStep_continued (b b1 : Broker) (now : Int) (order : List String) (pick : Bool)
    (hs : RunStep b now order pick = .continued b1) :
    ∃ m rest, b.input = m :: rest ∧
      dispatch { b with input := rest } m now order = .ok b1 ∧
      (b.ctx = none ∨ pick = true) := by
  cases hin : b.input with
  | nil =>
    cases hc : b.ctx with
    | none => rw [RunStep_idle b now order pick hc hin] at hs; cases hs
    | some e => rw [RunStep_empty_cancelled b e now order pick hc hin] at hs; cases hs
  | cons m rest =>
    refine ⟨m, rest, rfl, ?_⟩
    cases hd : dispatch { b with input := rest } m now order with
    | error p =>
      cases hc : b.ctx with
      | none => rw [RunStep_live b m rest now order pick hc hin, hd] at hs; cases hs
      | some e =>
        rw [RunStep_cancelled b e m rest now order pick hc hin, hd] at hs
        cases pick <;> simp at hs
    | ok b2 =>
      cases hc : b.ctx with
      | none =>
        rw [RunStep_live b m rest now order pick hc hin, hd] at hs
        simp only [RunOutcome.continued.injEq] at hs
        exact ⟨by rw [hs], Or.inl rfl⟩
      | some e =>
        rw [RunStep_cancelled b e m rest now order pick hc hin, hd] at hs
        cases pick with
        | false => simp at hs
        | true =>
          simp only [if_true, RunOutcome.continued.injEq] at hs
          exact ⟨by rw [hs], Or.inr rfl⟩

theorem RunStep_exited (b b1 : Broker) (now : Int) (order : List String) (pick : Bool)
    (hs : RunStep b now order pick = .exited b1) :
    b1 = { b with done := true } ∧ b.ctx ≠ none := by
  cases hin : b.input with
  | nil =>
    cases hc : b.ctx with
    | none => rw [RunStep_idle b now order pick hc hin] at hs; cases hs
    | some e =>
      rw [RunStep_empty_cancelled b e now order pick hc hin] at hs
      simp only [RunOutcome.exited.injEq] at hs
      rw [hc, hin] at hs
      exact ⟨hs.symm, by simp⟩
  | cons m rest =>
    cases hc : b.ctx with
    | none =>
      rw [RunStep_live b m rest now order pick hc hin] at hs
      split at hs <;> cases hs
    | some e =>
      rw [RunStep_cancelled b e m rest now order pick hc hin] at hs
      cases pick with
      | false =>
        simp only [Bool.false_eq_true, if_false, RunOutcome.exited.injEq] at hs
        rw [hc, hin] at hs
        exact ⟨hs.symm, by simp⟩
      | true =>
        simp only [if_true] at hs
        split at hs <;> cases hs

theorem RunStep_panicked (b b1 : Broker) (p : Panic) (now : Int) (order : List String)
    (pick : Bool) (hs : RunStep b now order pick = .panicked p b1) :
    ∃ m rest, b.input = m :: rest ∧
      dispatch { b with input := rest } m now order = .error p ∧
      b1 = afterPanic { b with input := rest } m now order := by
  cases hin : b.input with
  | nil =>
    cases hc : b.ctx with
    | none => rw [RunStep_idle b now order pick hc hin] at hs; cases hs
    | some e => rw [RunStep_empty_cancelled b e now order pick hc hin] at hs; cases hs
  | cons m rest =>
    refine ⟨m, rest, rfl, ?_⟩
    cases hd : dispatch { b with input := rest } m now order with
    | ok b2 =>
      cases hc : b.ctx with
      | none => rw [RunStep_live b m rest now order pick hc hin, hd] at hs; cases hs
      | some e =>
        rw [RunStep_cancelled b e m rest now order pick hc hin, hd] at hs
        cases pick <;> simp at hs
    | error q =>
      cases hc : b.ctx with
      | none =>
        rw [RunStep_live b m rest now order pick hc hin, hd] at hs
        simp only [RunOutcome.panicked.injEq] at hs
        rw [hc] at hs
        exact ⟨by rw [hs.1], hs.2.symm⟩
      | some e =>
        rw [RunStep_cancelled b e m rest now order pick hc hin, hd] at hs
        cases pick with
        | false => simp at hs
        | true =>
          simp only [if_true, RunOutcome.panicked.injEq] at hs
          rw [hc] at hs
          exact ⟨by rw [hs.1], hs.2.symm⟩

theorem dispatch_ok_of_noClosed (b : Broker) (msg : Message) (now : Int)
    (order : List String) (hc : NoClosedMailbox b) :
    ∃ b1, dispatch b msg now order = .ok b1 := by
  cases hb : msg.Broadcast with
  | true =>
    obtain ⟨c1, _, h2⟩ := dispatch_broadcast_ok b msg now order hb hc
    exact ⟨_, h2⟩
  | false =>
    rw [dispatch_unicast_eq b msg now order hb]
    unfold sendPrivateMessage
    cases hu : b.users (stamp msg now).Recipient with
    | none => exact ⟨b, rfl⟩
    | some h =>
      obtain ⟨c1, hs⟩ := trySend_ok b.chans h (stamp msg now)
        (fun r hr => hc _ r (by rw [hu, hr]))
      exact ⟨{ b with chans := c1 }, by simp only [hs]⟩

theorem NoClosedMailbox_of_frame (b b1 : Broker) (hc : NoClosedMailbox b)
    (hu : b1.users = b.users) (hcl : ∀ r, (b1.chans r).closed = (b.chans r).closed) :
    NoClosedMailbox b1 := by
  intro id r h
  rw [hcl r]
  exact hc id r (by rw [← hu]; exact h)

theorem play_send (b : Broker) (msg : Message) (pick : Bool) (evs : List Event)
    (errs : List (Option CtxErr)) (b1 : Broker)
    (hp : play b (.send msg pick :: evs) = .ok (errs, b1)) :
    ∃ err b2 errs2, SendMessage b msg pick = .returned err b2 ∧
      play b2 evs = .ok (errs2, b1) ∧ errs = err :: errs2 := by
  simp only [play] at hp
  cases hs : SendMessage b msg pick with
  | blocked => rw [hs] at hp; cases hp
  | returned err b2 =>
    rw [hs] at hp
    simp only at hp
    cases hq : play b2 evs with
    | error e => rw [hq] at hp; cases hp
    | ok v =>
      obtain ⟨errs2, b3⟩ := v
      rw [hq] at hp
      simp only [Except.ok.injEq, Prod.mk.injEq] at hp
      exact ⟨err, b2, errs2, rfl, by rw [← hp.2]; exact hq, hp.1.symm⟩

theorem play_pass_done (b : Broker) (now : Int) (order : List String) (pick : Bool)
    (evs : List Event) (hd : b.done = true) :
    play b (.pass now order pick :: evs) = play b evs := by
  simp only [play, hd, if_true]

theorem play_pass_live (b : Broker) (now : Int) (order : List String) (pick : Bool)
    (evs : List Event) (hd : b.done = false) :
    play b (.pass now order pick :: evs) =
      match RunStep b now order pick with
      | .continued b1 => play b1 evs
      | .exited b1 => play b1 evs
      | .waiting => play b evs
      | .panicked p _ => .error (.panic p) := by
  simp only [play, hd, Bool.false_eq_true, if_false]

/-- What a run leaves alone: the context, the registry, the capacity and the
closed flag of every channel; `done` once set; and every channel once `done`
is set.  `done` is not set during a run unless the signal has fired. -/
theorem play_frame (evs : List Event) :
    ∀ (b b1 : Broker) (errs : List (Option CtxErr)), play b evs = .ok (errs, b1) →
      b1.ctx = b.ctx ∧ b1.users = b.users ∧
      (∀ r, (b1.chans r).cap = (b.chans r).cap ∧ (b1.chans r).closed = (b.chans r).closed) ∧
      (b.done = true → b1.done = true ∧ b1.chans = b.chans) ∧
      (b1.done = true → b.done = true ∨ b.ctx ≠ none) := by
  induction evs with
  | nil =>
    intro b b1 errs hp
    simp only [play, Except.ok.injEq, Prod.mk.injEq] at hp
    obtain ⟨_, rfl⟩ := hp
    exact ⟨rfl, rfl, fun _ => ⟨rfl, rfl⟩, fun h => ⟨h, rfl⟩, fun h => Or.inl h⟩
  | cons ev evs ih =>
    intro b b1 errs hp
    cases ev with
    | send msg pick =>
      obtain ⟨err, b2, errs2, hs, hq, _⟩ := play_send b msg pick evs errs b1 hp
      obtain ⟨f1, f2, f3, f4, _⟩ := SendMessage_frame b b2 msg pick err hs
      obtain ⟨g1, g2, g3, g4, g5⟩ := ih b2 b1 errs2 hq
      refine ⟨g1.trans f1, g2.trans f2, ?_, ?_, ?_⟩
      · intro r
        rw [(g3 r).1, (g3 r).2, f4]
        exact ⟨rfl, rfl⟩
      · intro h
        obtain ⟨h1, h2⟩ := g4 (f3.trans h)
        exact ⟨h1, h2.trans f4⟩
      · intro h
        rw [← f3, ← f1]
        exact g5 h
    | pass now order pick =>
      by_cases hd : b.done = true
      · rw [play_pass_done b now order pick evs hd] at hp
        obtain ⟨g1, g2, g3, g4, g5⟩ := ih b b1 errs hp
        exact ⟨g1, g2, g3, fun _ => g4 hd, fun _ => Or.inl hd⟩
      · have hd0 : b.done = false := by simpa using hd
        rw [play_pass_live b now order pick evs hd0] at hp
        cases hr : RunStep b now order pick with
        | waiting =>
          rw [hr] at hp
          obtain ⟨g1, g2, g3, _, g5⟩ := ih b b1 errs hp
          exact ⟨g1, g2, g3, fun h => absurd h hd, g5⟩
        | panicked p b3 => rw [hr] at hp; cases hp
        | exited b2 =>
          rw [hr] at hp
          obtain ⟨he, hne⟩ := RunStep_exited b b2 now order pick hr
          obtain ⟨g1, g2, g3, _, _⟩ := ih b2 b1 errs hp
          rw [he] at g1 g2 g3
          exact ⟨g1, g2, g3, fun h => absurd h hd, fun _ => Or.inr hne⟩
        | continued b2 =>
          rw [hr] at hp
          obtain ⟨m, rest, _, hdis, _⟩ := RunStep_continued b b2 now order pick hr
          obtain ⟨f1, _, f3, f4, f5⟩ := dispatch_frame _ b2 m now order hdis
          obtain ⟨g1, g2, g3, _, g5⟩ := ih b2 b1 errs hp
          refine ⟨g1.trans f1, g2.trans f3, ?_, fun h => absurd h hd, ?_⟩
          · intro r
            rw [(g3 r).1, (g3 r).2, (f5 r).1, (f5 r).2.1]
            exact ⟨rfl, rfl⟩
          · intro h
            rcases g5 h with h1 | h1
            · rw [f4] at h1
              exact Or.inl h1
            · exact Or.inr (by rw [f1] at h1; exact h1)

/-- A run on a registry without a closed mailbox never panics. -/
theorem play_no_panic (evs : List Event) :
    ∀ b : Broker, NoClosedMailbox b → ∀ p, play b evs ≠ .error (.panic p) := by
  induction evs with
  | nil => intro b _ p h; simp [play] at h
  | cons ev evs ih =>
    intro b hc p hp
    cases ev with
    | send msg pick =>
      simp only [play] at hp
      cases hs : SendMessage b msg pick with
      | blocked => rw [hs] at hp; cases hp
      | returned err b2 =>
        rw [hs] at hp
        simp only at hp
        obtain ⟨_, f2, _, f4, _⟩ := SendMessage_frame b b2 msg pick err hs
        have hc2 : NoClosedMailbox b2 :=
          NoClosedMailbox_of_frame b b2 hc f2 (fun r => by rw [f4])
        cases hq : play b2 evs with
        | ok v => rw [hq] at hp; cases hp
        | error e =>
          rw [hq] at hp
          simp only [Except.error.injEq] at hp
          exact ih b2 hc2 p (by rw [hq, hp])
    | pass now order pick =>
      by_cases hd : b.done = true
      · rw [play_pass_done b now order pick evs hd] at hp
        exact ih b hc p hp
      · have hd0 : b.done = false := by simpa using hd
        rw [play_pass_live b now order pick evs hd0] at hp
        cases hr : RunStep b now order pick with
        | waiting => rw [hr] at hp; exact ih b hc p hp
        | panicked q b3 =>
          obtain ⟨m, rest, _, hdis, _⟩ := RunStep_panicked b b3 q now order pick hr
          obtain ⟨b3, h3⟩ := dispatch_ok_of_noClosed { b with input := rest } m now order hc
          rw [h3] at hdis
          cases hdis
        | exited b2 =>
          rw [hr] at hp
          obtain ⟨he, _⟩ := RunStep_exited b b2 now order pick hr
          have hc2 : NoClosedMailbox b2 := by rw [he]; exact hc
          exact ih b2 hc2 p hp
        | continued b2 =>
          rw [hr] at hp
          obtain ⟨m, rest, _, hdis, _⟩ := RunStep_continued b b2 now order pick hr
          obtain ⟨_, _, f3, _, f5⟩ := dispatch_frame _ b2 m now order hdis
          have hc2 : NoClosedMailbox b2 :=
            NoClosedMailbox_of_frame b b2 hc f3 (fun r => (f5 r).2.1)
          exact ih b2 hc2 p hp

theorem trySend_error (chans : Nat → Chan) (h : Handle) (msg : Message) (p : Panic)
    (hs : trySend chans h msg = .error p) : p = .sendOnClosedChannel := by
  unfold trySend at hs
  cases h with
  | none => cases hs
  | some r =>
    simp only at hs
    split_ifs at hs
    simp only [Except.error.injEq] at hs
    exact hs.symm

theorem broadcastLoop_error (users : String → Option Handle) (msg : Message) (p : Panic)
    (order : List String) :
    ∀ chans, broadcastLoop users msg order chans = .error p → p = .sendOnClosedChannel := by
  induction order with
  | nil => intro chans h; cases h
  | cons id rest ih =>
    intro chans h
    unfold broadcastLoop at h
    cases hu : users id with
    | none =>
      rw [hu] at h
      exact ih chans h
    | some hd =>
      rw [hu] at h
      simp only at h
      cases ht : trySend chans hd msg with
      | ok c1 =>
        rw [ht] at h
        exact ih c1 h
      | error q =>
        rw [ht] at h
        simp only [Except.error.injEq] at h
        rw [← h]
        exact trySend_error chans hd msg q ht

/-- When the broadcast loop completes, the channels it stops at are the channels it
returns. -/
theorem broadcastReached_of_ok (users : String → Option Handle) (msg : Message)
    (order : List String) :
    ∀ chans c1, broadcastLoop users msg order chans = .ok c1 →
      broadcastReached users msg order chans = c1 := by
  induction order with
  | nil =>
    intro chans c1 h
    simp only [broadcastLoop, Except.ok.injEq] at h
    simp only [broadcastReached, h]
  | cons id rest ih =>
    intro chans c1 h
    unfold broadcastLoop at h
    unfold broadcastReached
    cases hu : users id with
    | none =>
      rw [hu] at h
      exact ih chans c1 h
    | some hd =>
      rw [hu] at h
      simp only at h ⊢
      cases ht : trySend chans hd msg with
      | ok c2 =>
        rw [ht] at h
        exact ih c2 c1 h
      | error q =>
        rw [ht] at h
        cases h

/-- The only panic a dispatch step can raise is a send on a closed channel. -/
theorem dispatch_error (b : Broker) (msg : Message) (now : Int) (order : List String)
    (p : Panic) (h : dispatch b msg now order = .error p) : p = .sendOnClosedChannel := by
  unfold dispatch at h
  split_ifs at h
  · unfold broadcastMessage at h
    cases hl : broadcastLoop b.users (stamp msg now) order b.chans with
    | ok c1 => rw [hl] at h; cases h
    | error q =>
      rw [hl] at h
      simp only [Except.error.injEq] at h
      rw [← h]
      exact broadcastLoop_error b.users (stamp msg now) q order b.chans hl
  · unfold sendPrivateMessage at h
    cases hu : b.users (stamp msg now).Recipient with
    | none => rw [hu] at h; cases h
    | some hd =>
      rw [hu] at h
      simp only at h
      cases ht : trySend b.chans hd (stamp msg now) with
      | ok c1 => rw [ht] at h; cases h
      | error q =>
        rw [ht] at h
        simp only [Except.error.injEq] at h
        rw [← h]
        exact trySend_error b.chans hd (stamp msg now) q ht

/-- C16 fails as stated: the mailbox of `"a"` is closed and a broadcast is queued.
The cancellation signal has not fired and `done` is unset; the pass of `Run`
panics on the send, and the deferred `close(b.done)` sets `done` although
cancellation was never observed. -/
theorem C16_counterexample_done_set_by_panic :
    closedAqueued.ctx = none ∧ closedAqueued.done = false ∧
      ∃ b1, RunStep closedAqueued 7 ["a", "b"] true = .panicked .sendOnClosedChannel b1 ∧
        b1.done = true ∧ b1.ctx = none :=
  ⟨rfl, rfl, _, rfl, rfl, rfl⟩

/-- C16 (as amended): a new broker has `done` unset; `SendMessage`, `RegisterUser`,
`UnregisterUser`, a dispatch step and a pass of `Run` that handles a message and
completes all leave `done` as it is.  `done` is set when `Run` ends, in one of
two ways.  `Run` returns after observing cancellation: only with the signal
fired, always when the signal has fired and the queue is empty or the runtime
takes the cancellation arm.  Or the dispatch step panics, which happens only on
a send to a closed registered mailbox: then `done` is set with the context as
it was.  With no registered mailbox closed no pass panics, and with the signal
not fired no pass returns.  Over a run that plays to its end `done`, once set,
stays set, and it is not set unless the signal has fired. -/
theorem C16_done_set_when_run_ends (b : Broker) (msg : Message) (pick : Bool) (id : String)
    (m : Handle) (now : Int) (order : List String) (ctx : Option CtxErr)
    (chans : Nat → Chan) :
    (NewBroker ctx chans).done = false ∧
      (∀ err b1, SendMessage b msg pick = .returned err b1 → b1.done = b.done) ∧
      (RegisterUser b id m).done = b.done ∧
      (∀ b1, UnregisterUser b id = .ok b1 → b1.done = b.done) ∧
      (∀ b1, dispatch b msg now order = .ok b1 → b1.done = b.done) ∧
      (∀ b1, RunStep b now order pick = .continued b1 → b1.done = b.done) ∧
      (∀ b1, RunStep b now order pick = .exited b1 →
        b1 = { b with done := true } ∧ b.ctx ≠ none) ∧
      (∀ e, b.ctx = some e → b.input = [] →
        RunStep b now order pick = .exited { b with done := true }) ∧
      (∀ e, b.ctx = some e → RunStep b now order false = .exited { b with done := true }) ∧
      (∀ p b1, RunStep b now order pick = .panicked p b1 →
        b1.done = true ∧ b1.ctx = b.ctx ∧ b1.users = b.users ∧
          p = .sendOnClosedChannel ∧ ¬ NoClosedMailbox b) ∧
      (NoClosedMailbox b → ∀ p b1, RunStep b now order pick ≠ .panicked p b1) ∧
      (b.ctx = none → ∀ b1, RunStep b now order pick ≠ .exited b1) ∧
      (∀ evs errs b1, play b evs = .ok (errs, b1) →
        (b.done = true → b1.done = true) ∧
        (b1.done = true → b.done = true ∨ b.ctx ≠ none)) := by
  have hpan : ∀ p b1, RunStep b now order pick = .panicked p b1 →
      b1.done = true ∧ b1.ctx = b.ctx ∧ b1.users = b.users ∧
        p = .sendOnClosedChannel ∧ ¬ NoClosedMailbox b := by
    intro p b1 hs
    obtain ⟨m0, rest, _, hd, hb⟩ := RunStep_panicked b b1 p now order pick hs
    refine ⟨by rw [hb]; rfl, by rw [hb]; rfl, by rw [hb]; rfl,
      dispatch_error _ m0 now order p hd, ?_⟩
    intro hc
    obtain ⟨b2, h2⟩ := dispatch_ok_of_noClosed { b with input := rest } m0 now order hc
    rw [h2] at hd
    cases hd
  refine ⟨rfl, ?_, rfl, ?_, ?_, ?_, ?_, ?_, ?_, hpan, ?_, ?_, ?_⟩
  · intro err b1 hs
    exact (SendMessage_frame b b1 msg pick err hs).2.2.1
  · intro b1 hs
    exact (UnregisterUser_removes b b1 id hs).2.2.2
  · intro b1 hd
    exact (dispatch_frame b b1 msg now order hd).2.2.2.1
  · intro b1 hs
    obtain ⟨m0, rest, _, hd, _⟩ := RunStep_continued b b1 now order pick hs
    exact (dispatch_frame _ b1 m0 now order hd).2.2.2.1
  · intro b1 hs
    exact RunStep_exited b b1 now order pick hs
  · intro e hc hin
    exact RunStep_empty_cancelled b e now order pick hc hin
  · intro e hc
    cases hin : b.input with
    | nil => rw [RunStep_empty_cancelled b e now order false hc hin, hin]
    | cons m0 rest =>
      rw [RunStep_cancelled b e m0 rest now order false hc hin, hin]
      simp
  · intro hc p b1 hs
    exact (hpan p b1 hs).2.2.2.2 hc
  · intro hc b1 hs
    exact (RunStep_exited b b1 now order pick hs).2 hc
  · intro evs errs b1 hp
    obtain ⟨_, _, _, h4, h5⟩ := play_frame evs b b1 errs hp
    exact ⟨fun h => (h4 h).1, h5⟩

/-- C16 at concrete brokers: a new broker has `done` unset; with the signal fired and
the queue empty the pass of `Run` returns and `done` is set; with the mailbox of
`"a"` closed and a broadcast queued the pass panics and `done` is set, the
message is off the queue, and when the traversal visits `"b"` first the mailbox
of `"b"` has received its copy before the panic. -/
theorem C16_witness_exit_and_panic :
    (NewBroker none (fun _ => freshChan 1)).done = false ∧
      cancelledA.ctx = some .Canceled ∧ cancelledA.done = false ∧
      RunStep cancelledA 7 ["a"] true = .exited { cancelledA with done := true } ∧
      ∃ b1, RunStep closedAqueued 7 ["b", "a"] true = .panicked .sendOnClosedChannel b1 ∧
        b1.done = true ∧ ¬ NoClosedMailbox closedAqueued ∧ b1.input = [] ∧
        (b1.chans 1).buf = [{ hello with Timestamp := 7 }] := by
  obtain ⟨h1, _, _, _, _, _, _, h8, _⟩ :=
    C16_done_set_when_run_ends cancelledA hello true "a" none 7 ["a"] none
      (fun _ => freshChan 1)
  obtain ⟨_, _, _, _, _, _, _, _, _, h10, _⟩ :=
    C16_done_set_when_run_ends closedAqueued hello true "a" none 7 ["b", "a"] none
      (fun _ => freshChan 1)
  have hp : ∃ b1, RunStep closedAqueued 7 ["b", "a"] true =
      .panicked .sendOnClosedChannel b1 ∧ b1.input = [] ∧
      (b1.chans 1).buf = [{ hello with Timestamp := 7 }] := ⟨_, rfl, rfl, rfl⟩
  obtain ⟨b1, hp, hq, hr⟩ := hp
  obtain ⟨g1, _, _, _, g5⟩ := h10 .sendOnClosedChannel b1 hp
  exact ⟨h1, rfl, rfl, h8 .Canceled rfl rfl, b1, hp, g1, g5, hq, hr⟩

/-- C17 fails as stated: after the signal has fired and `Run` has returned,
`RegisterUser` still adds `"b"` to the registry, and `UnregisterUser` still
closes the mailbox of `"a"` and removes `"a"`. -/
theorem C17_counterexample_stopped_broker :
    stoppedA.ctx = some .Canceled ∧ stoppedA.done = true ∧
      stoppedA.users "b" = none ∧
      (RegisterUser stoppedA "b" (some 1)).users "b" = some (some 1) ∧
      stoppedA.users "a" = some (some 0) ∧ (stoppedA.chans 0).closed = false ∧
      ∃ b1, UnregisterUser stoppedA "a" = .ok b1 ∧ b1.users "a" = none ∧
        (b1.chans 0).closed = true :=
  ⟨rfl, rfl, rfl, rfl, rfl, rfl, _, rfl, rfl, rfl⟩

/-- C17 (as amended): once the signal has fired and `Run` has returned, the
registry operations work as on a running broker.  `RegisterUser` maps the
identity to the given mailbox and touches nothing else, so it leaves the
registry and the mailboxes as they were exactly when the identity was already
registered with that mailbox.  `UnregisterUser`, when it returns, has removed
the identity and no other, has closed its mailbox when that was open and empty,
and has left the registry and the mailboxes as they were exactly when the
identity was not registered.  Neither reads `ctx` or `done`: their result on
the registry and the channels is the one they have on the same broker while it
runs. -/
theorem C17_registry_still_mutable_after_stop (b : Broker) (e : CtxErr) (id : String)
    (m : Handle) (hctx : b.ctx = some e) (hdone : b.done = true) :
    (RegisterUser b id m).users id = some m ∧
      (∀ id1, id1 ≠ id → (RegisterUser b id m).users id1 = b.users id1) ∧
      (RegisterUser b id m).chans = b.chans ∧
      (((RegisterUser b id m).users = b.users ∧ (RegisterUser b id m).chans = b.chans) ↔
        b.users id = some m) ∧
      (b.users id = none → UnregisterUser b id = .ok b) ∧
      (∀ b1, UnregisterUser b id = .ok b1 →
        b1.users id = none ∧ (∀ id1, id1 ≠ id → b1.users id1 = b.users id1) ∧
          ((b1.users = b.users ∧ b1.chans = b.chans) ↔ b.users id = none)) ∧
      (∀ r, b.users id = some (some r) → (b.chans r).closed = false →
        (b.chans r).buf = [] →
        ∃ b1, UnregisterUser b id = .ok b1 ∧ b1.users id = none ∧
          (b1.chans r).closed = true) ∧
      (RegisterUser { b with ctx := none, done := false } id m).users =
        (RegisterUser b id m).users ∧
      (∀ b1 b2, UnregisterUser b id = .ok b1 →
        UnregisterUser { b with ctx := none, done := false } id = .ok b2 →
        b2.users = b1.users ∧ b2.chans = b1.chans) ∧
      (RegisterUser b id m).ctx = some e ∧ (RegisterUser b id m).done = true := by
  refine ⟨by simp [RegisterUser], ?_, rfl, ?_, UnregisterUser_absent b id, ?_, ?_, rfl, ?_,
    hctx, hdone⟩
  · intro id1 hne
    simp [RegisterUser, Function.update_noteq hne]
  · constructor
    · intro h
      have h1 := congrFun h.1 id
      simp only [RegisterUser, Function.update_same] at h1
      exact h1.symm
    · intro h
      refine ⟨?_, rfl⟩
      show Function.update b.users id (some m) = b.users
      rw [← h]
      exact Function.update_eq_self id b.users
  · intro b1 hs
    have hrem := (UnregisterUser_removes b b1 id hs).1
    refine ⟨by rw [hrem]; exact Function.update_same id none b.users, ?_, ?_⟩
    · intro id1 hne
      rw [hrem]
      exact Function.update_noteq hne none b.users
    · constructor
      · intro h
        have h1 := congrFun h.1 id
        rw [hrem, Function.update_same] at h1
        exact h1.symm
      · intro h
        rw [UnregisterUser_absent b id h] at hs
        simp only [Except.ok.injEq] at hs
        rw [← hs]
        exact ⟨rfl, rfl⟩
  · intro r hu ho he
    obtain ⟨b1, h1, h2, _, h4⟩ := UnregisterUser_closes_empty b id r hu ho he
    exact ⟨b1, h1, h4, h2⟩
  · intro b1 b2 h1 h2
    unfold UnregisterUser at h1 h2
    simp only at h2
    cases hu : b.users id with
    | none =>
      simp only [hu, Except.ok.injEq] at h1 h2
      subst h1 h2
      exact ⟨rfl, rfl⟩
    | some h =>
      simp only [hu] at h1 h2
      cases hcl : closeUnlessReady b.chans h with
      | error p => rw [hcl] at h1; cases h1
      | ok c1 =>
        rw [hcl] at h1 h2
        simp only [Except.ok.injEq] at h1 h2
        subst h1 h2
        exact ⟨rfl, rfl⟩

/-- C17 at the stopped broker: `"b"` is registered and `"a"` is unregistered with its
mailbox closed; registering `"a"` again with the mailbox it already has changes
neither the registry nor a mailbox. -/
theorem C17_witness_stopped_broker :
    stoppedA.ctx = some .Canceled ∧ stoppedA.done = true ∧
      (RegisterUser stoppedA "b" (some 1)).users "b" = some (some 1) ∧
      (∃ b1, UnregisterUser stoppedA "a" = .ok b1 ∧ b1.users "a" = none ∧
        (b1.chans 0).closed = true) ∧
      (RegisterUser stoppedA "a" (some 0)).users = stoppedA.users ∧
      (RegisterUser stoppedA "a" (some 0)).chans = stoppedA.chans := by
  obtain ⟨h1, _⟩ :=
    C17_registry_still_mutable_after_stop stoppedA .Canceled "b" (some 1) rfl rfl
  obtain ⟨_, _, _, _, _, _, h7, _⟩ :=
    C17_registry_still_mutable_after_stop stoppedA .Canceled "a" none rfl rfl
  obtain ⟨_, _, _, h4, _⟩ :=
    C17_registry_still_mutable_after_stop stoppedA .Canceled "a" (some 0) rfl rfl
  exact ⟨rfl, rfl, h1, h7 0 rfl rfl rfl, (h4.mpr rfl).1, (h4.mpr rfl).2⟩

/-! ## Order of dispatch, cancellation, and survival of the routing loop -/

theorem dispatched_send (b b2 : Broker) (msg : Message) (pick : Bool) (err : Option CtxErr)
    (evs : List Event) (hs : SendMessage b msg pick = .returned err b2) :
    dispatched b (.send msg pick :: evs) = dispatched b2 evs := by
  simp only [dispatched, hs]

theorem dispatched_pass_done (b : Broker) (now : Int) (order : List String) (pick : Bool)
    (evs : List Event) (hd : b.done = true) :
    dispatched b (.pass now order pick :: evs) = dispatched b evs := by
  simp only [dispatched, hd, if_true]

theorem dispatched_of_done (evs : List Event) :
    ∀ b : Broker, b.done = true → dispatched b evs = [] := by
  induction evs with
  | nil => intro b _; rfl
  | cons ev evs ih =>
    intro b hd
    cases ev with
    | send msg pick =>
      cases hs : SendMessage b msg pick with
      | blocked => simp only [dispatched, hs]
      | returned err b2 =>
        rw [dispatched_send b b2 msg pick err evs hs]
        exact ih b2 ((SendMessage_frame b b2 msg pick err hs).2.2.1.trans hd)
    | pass now order pick =>
      rw [dispatched_pass_done b now order pick evs hd]
      exact ih b hd

/-- C14 fails as stated: the signal has fired, yet `SendMessage` accepts the note
(the runtime may take the send arm, the queue has room) and the next pass of the
loop takes it from the queue and delivers it to `"a"` (the runtime may take the
receive arm) instead of exiting. -/
theorem C14_counterexample_delivered_after_cancel :
    cancelledA.ctx = some .Canceled ∧
      dispatched cancelledA sendThenPass = [(note, 7)] ∧
      ∃ b1, play cancelledA sendThenPass = .ok ([none], b1) ∧
        (b1.chans 0).buf = [{ note with Timestamp := 7 }] ∧ b1.done = false :=
  ⟨rfl, rfl, _, rfl, rfl, rfl⟩

/-- C14 (as amended): once the cancellation signal has fired, a pass of the routing
loop exits when the runtime takes the cancellation arm, and always when the
queue is empty; it handles a message only when the queue is not empty and the
runtime takes the receive arm.  `SendMessage` returns the error of the context,
leaving the queue alone, when the runtime takes the cancellation arm, and
always when the queue is full; it accepts a message only when the queue has
room and the runtime takes the send arm.  Once the loop has exited, no message
is taken from the queue and no mailbox changes. -/
theorem C14_cancelled_loop_exits_or_races (b : Broker) (e : CtxErr) (now : Int)
    (order : List String) (hctx : b.ctx = some e) :
    RunStep b now order false = .exited { b with done := true } ∧
      (b.input = [] → ∀ pick, RunStep b now order pick = .exited { b with done := true }) ∧
      (∀ pick b1, RunStep b now order pick = .continued b1 →
        pick = true ∧ ∃ m rest, b.input = m :: rest ∧
          dispatch { b with input := rest } m now order = .ok b1) ∧
      (∀ msg, SendMessage b msg false = .returned (some e) b) ∧
      (∀ msg pick, inputCap ≤ b.input.length →
        SendMessage b msg pick = .returned (some e) b) ∧
      (∀ msg pick b1, SendMessage b msg pick = .returned none b1 →
        pick = true ∧ b.input.length < inputCap) ∧
      (∀ evs errs b1, b.done = true → play b evs = .ok (errs, b1) →
        b1.chans = b.chans ∧ b1.done = true ∧ dispatched b evs = []) := by
  refine ⟨?_, ?_, ?_, ?_, ?_, ?_, ?_⟩
  · cases hin : b.input with
    | nil =>
      rw [RunStep_empty_cancelled b e now order false hctx hin, hin]
    | cons m rest =>
      rw [RunStep_cancelled b e m rest now order false hctx hin, hin]
      simp
  · intro hin pick
    exact RunStep_empty_cancelled b e now order pick hctx hin
  · intro pick b1 hs
    obtain ⟨m, rest, hin, hdis, hor⟩ := RunStep_continued b b1 now order pick hs
    refine ⟨?_, m, rest, hin, hdis⟩
    rcases hor with h | h
    · rw [hctx] at h; cases h
    · exact h
  · intro msg
    by_cases hq : b.input.length < inputCap
    · simp [SendMessage, hctx, hq]
    · simp [SendMessage, hctx, hq]
  · intro msg pick hfull
    have hq : ¬ b.input.length < inputCap := by omega
    simp [SendMessage, hctx, hq]
  · intro msg pick b1 hs
    by_cases hq : b.input.length < inputCap
    · cases pick with
      | true => exact ⟨rfl, hq⟩
      | false => simp [SendMessage, hctx, hq] at hs
    · simp [SendMessage, hctx, hq] at hs
  · intro evs errs b1 hd hp
    obtain ⟨_, _, _, h4, _⟩ := play_frame evs b b1 errs hp
    exact ⟨(h4 hd).2, (h4 hd).1, dispatched_of_done evs b hd⟩

/-- C14 at concrete brokers: with the signal fired the pass that takes the
cancellation arm exits, and after `Run` has returned the same two events leave
the mailbox of `"a"` empty. -/
theorem C14_witness_exit_and_after :
    cancelledA.ctx = some .Canceled ∧
      RunStep cancelledA 7 ["a"] false = .exited { cancelledA with done := true } ∧
      stoppedA.ctx = some .Canceled ∧ stoppedA.done = true ∧
      ∃ b1, play stoppedA sendThenPass = .ok ([none], b1) ∧ b1.chans = stoppedA.chans := by
  obtain ⟨h1, _⟩ := C14_cancelled_loop_exits_or_races cancelledA .Canceled 7 ["a"] rfl
  obtain ⟨_, _, _, _, _, _, h7⟩ :=
    C14_cancelled_loop_exits_or_races stoppedA .Canceled 7 ["a"] rfl
  have hp : ∃ b1, play stoppedA sendThenPass = .ok ([none], b1) := ⟨_, rfl⟩
  obtain ⟨b1, hp⟩ := hp
  exact ⟨rfl, h1, rfl, rfl, b1, hp, (h7 sendThenPass _ b1 rfl hp).1⟩

/-- C15 fails as stated: with the mailbox of `"a"` closed and a broadcast at the
head of the queue, the pass of the loop panics on the send although the
cancellation signal has not fired; the loop ends there. -/
theorem C15_counterexample_closed_mailbox_ends_loop :
    closedAqueued.ctx = none ∧ closedAqueued.input = [hello] ∧
      closedAqueued.users "a" = some (some 0) ∧ (closedAqueued.chans 0).closed = true ∧
      RunStep closedAqueued 7 ["a", "b"] true =
        .panicked .sendOnClosedChannel { closedA with done := true } ∧
      play closedAqueued [.pass 7 ["a", "b"] true] =
        .error (.panic .sendOnClosedChannel) :=
  ⟨rfl, rfl, rfl, rfl, rfl, rfl⟩

/-- C15 (as amended): when no registered mailbox is closed, whatever the mailboxes
hold (nothing, something, or as much as they can), the dispatch step of every
message completes and leaves no registered mailbox closed; no pass of the loop
panics, a pass with a live context and a queued message handles it and the loop
goes on, a pass exits only when the cancellation signal has fired, and no run
ends in a panic. -/
theorem C15_loop_survives_delivery_outcomes (b : Broker) (now : Int) (order : List String)
    (pick : Bool) (hc : NoClosedMailbox b) :
    (∀ msg, ∃ b1, dispatch b msg now order = .ok b1 ∧ NoClosedMailbox b1) ∧
      (∀ p b1, RunStep b now order pick ≠ .panicked p b1) ∧
      (∀ b1, RunStep b now order pick = .continued b1 → NoClosedMailbox b1) ∧
      (∀ b1, RunStep b now order pick = .exited b1 → b.ctx ≠ none) ∧
      (b.ctx = none → ∀ m rest, b.input = m :: rest →
        ∃ b1, RunStep b now order pick = .continued b1) ∧
      (∀ evs p, play b evs ≠ .error (.panic p)) := by
  have hdis : ∀ (b0 : Broker), NoClosedMailbox b0 → ∀ msg,
      ∃ b1, dispatch b0 msg now order = .ok b1 ∧ NoClosedMailbox b1 := by
    intro b0 h0 msg
    obtain ⟨b1, h1⟩ := dispatch_ok_of_noClosed b0 msg now order h0
    obtain ⟨_, _, f3, _, f5⟩ := dispatch_frame b0 b1 msg now order h1
    exact ⟨b1, h1, NoClosedMailbox_of_frame b0 b1 h0 f3 (fun r => (f5 r).2.1)⟩
  refine ⟨hdis b hc, ?_, ?_, ?_, ?_, fun evs p => play_no_panic evs b hc p⟩
  · intro p b2 hs
    obtain ⟨m, rest, _, hd, _⟩ := RunStep_panicked b b2 p now order pick hs
    obtain ⟨b1, h1, _⟩ := hdis { b with input := rest } hc m
    rw [h1] at hd
    cases hd
  · intro b1 hs
    obtain ⟨m, rest, _, hd, _⟩ := RunStep_continued b b1 now order pick hs
    obtain ⟨_, _, f3, _, f5⟩ := dispatch_frame _ b1 m now order hd
    exact NoClosedMailbox_of_frame b b1 hc f3 (fun r => (f5 r).2.1)
  · intro b1 hs
    exact (RunStep_exited b b1 now order pick hs).2
  · intro hctx m rest hin
    obtain ⟨b1, h1, _⟩ := hdis { b with input := rest } hc m
    exact ⟨b1, by rw [RunStep_live b m rest now order pick hctx hin, h1]⟩

/-- C15 at a concrete registry: with the mailbox of `"a"` full and the mailbox of
`"b"` empty, the pass handles the queued broadcast and the loop goes on. -/
theorem C15_witness_full_mailbox :
    NoClosedMailbox fullAqueued ∧ fullAqueued.ctx = none ∧ fullAqueued.input = [hello] ∧
      ∃ b1, RunStep fullAqueued 7 ["a", "b"] true = .continued b1 := by
  have hnc : NoClosedMailbox fullAqueued := by
    intro id r _
    simp only [fullAqueued, fullA, freshChan]
    split_ifs <;> rfl
  obtain ⟨_, _, _, _, h5, _⟩ :=
    C15_loop_survives_delivery_outcomes fullAqueued 7 ["a", "b"] true hnc
  exact ⟨hnc, rfl, rfl, h5 rfl hello [] rfl⟩

end Chatcore

namespace message

/-! ## The message store -/

theorem collectBySender_eq (user : String) (ms : List Message) :
    ∀ acc, collectBySender user acc ms =
      acc ++ ms.filter (fun m => decide (m.Sender = user)) := by
  induction ms with
  | nil => intro acc; simp [collectBySender]
  | cons m rest ih =>
    intro acc
    by_cases h : m.Sender = user
    · simp [collectBySender, h, ih]
    · simp [collectBySender, h, ih]

theorem addAll_messages (ms : List Message) :
    ∀ s : MessageStore, (addAll s ms).messages = s.messages ++ ms := by
  induction ms with
  | nil => intro s; simp [addAll]
  | cons m rest ih =>
    intro s
    simp [addAll, ih, AddMessage]

/-- C18: `AddMessage` returns nil and appends the message at the end;
`GetMessages("")` returns, with a nil error, the stored messages in insertion
order (it only reads the store); so after adding `m1, ..., mn` to a new store,
`GetMessages("")` is `[m1, ..., mn]`. -/
theorem C18_add_then_get_all (s : MessageStore) (m : Message) (ms : List Message) :
    (AddMessage s m).2 = none ∧ (AddMessage s m).1.messages = s.messages ++ [m] ∧
      GetMessages s "" = (s.messages, none) ∧
      GetMessages (AddMessage s m).1 "" = (s.messages ++ [m], none) ∧
      GetMessages (addAll NewMessageStore ms) "" = (ms, none) := by
  refine ⟨rfl, rfl, ?_, ?_, ?_⟩
  · simp [GetMessages]
  · simp [GetMessages, AddMessage]
  · simp [GetMessages, addAll_messages, NewMessageStore]

/-- C19: for a non-empty sender filter `u`, `GetMessages(u)` returns, with a nil
error, the stored messages whose sender is `u`, in insertion order, that is the
filter of the stored list; the result is the empty list when none matches. -/
theorem C19_get_by_sender (s : MessageStore) (u : String) (hu : u ≠ "") :
    (GetMessages s u).2 = none ∧
      (GetMessages s u).1 = s.messages.filter (fun m => decide (m.Sender = u)) ∧
      ((∀ m ∈ s.messages, m.Sender ≠ u) → GetMessages s u = ([], none)) := by
  have hc := collectBySender_eq u s.messages []
  simp only [List.nil_append] at hc
  refine ⟨?_, ?_, ?_⟩
  · simp only [GetMessages, hu, if_false]
    split_ifs <;> rfl
  · simp only [GetMessages, hu, if_false, hc]
    split_ifs with h
    · exact (List.length_eq_zero.mp h).symm
    · rfl
  · intro hnone
    have hf : s.messages.filter (fun m => decide (m.Sender = u)) = [] := by
      rw [List.filter_eq_nil_iff]
      intro m hm
      simpa using hnone m hm
    simp [GetMessages, hu, hc, hf]

/-- C19 at a concrete store: the two messages of `"ann"`, in order, and nothing for
a sender who stored nothing. -/
theorem C19_witness_three_stored :
    ("ann" : String) ≠ "" ∧ GetMessages threeStored "ann" = ([fromAnn, fromAnnAgain], none) ∧
      GetMessages threeStored "zed" = ([], none) := by
  obtain ⟨h1, h2, _⟩ := C19_get_by_sender threeStored "ann" (by decide)
  obtain ⟨_, _, h3⟩ := C19_get_by_sender threeStored "zed" (by decide)
  refine ⟨by decide, ?_, h3 (by decide)⟩
  exact Prod.ext (by rw [h2]; decide) h1

end message

namespace user

/-! ## The user manager -/

theorem Validate_eq_none_iff (u : User) :
    Validate u = none ↔ u.ID ≠ "" ∧ u.Name ≠ "" ∧ emailRegexMatch u.Email = true := by
  unfold Validate
  by_cases h1 : u.ID = ""
  · simp [h1]
  · by_cases h2 : u.Name = ""
    · simp [h1, h2]
    · by_cases h3 : emailRegexMatch u.Email = true
      · simp [h1, h2, h3]
      · simp [h1, h2, h3]

theorem Validate_isValidation (u : User) (err : Error) (h : Validate u = some err) :
    err.isValidation = true := by
  unfold Validate at h
  split_ifs at h <;> simp only [Option.some.injEq] at h <;> subst h <;> rfl

/-- C20: with a live context, `AddUser` returns a validation error when the ID is
empty, the name is empty or the email does not match `emailRegex`; for a valid
user it returns the already-exists error when the ID is stored, and otherwise
returns nil and stores the user under its ID, leaving every other entry alone;
whenever it returns an error the manager is exactly as it was. -/
theorem C20_addUser_outcomes (m : UserManager) (u : User) (hctx : m.ctx = none) :
    (u.ID = "" ∨ u.Name = "" ∨ emailRegexMatch u.Email = false →
        ∃ err, AddUser m u = (m, some err) ∧ err.isValidation = true) ∧
      (u.ID ≠ "" → u.Name ≠ "" → emailRegexMatch u.Email = true → m.users u.ID ≠ none →
        AddUser m u = (m, some (.alreadyExists u.ID)) ∧
        (Error.alreadyExists u.ID).isDuplicate = true) ∧
      (u.ID ≠ "" → u.Name ≠ "" → emailRegexMatch u.Email = true → m.users u.ID = none →
        (AddUser m u).2 = none ∧ (AddUser m u).1.users u.ID = some u ∧
        (∀ id, id ≠ u.ID → (AddUser m u).1.users id = m.users id) ∧
        (AddUser m u).1.ctx = m.ctx) ∧
      (∀ err, (AddUser m u).2 = some err → (AddUser m u).1 = m) := by
  refine ⟨?_, ?_, ?_, ?_⟩
  · intro hbad
    cases hv : Validate u with
    | none =>
      obtain ⟨h1, h2, h3⟩ := (Validate_eq_none_iff u).mp hv
      rcases hbad with h | h | h
      · exact absurd h h1
      · exact absurd h h2
      · rw [h3] at h; cases h
    | some err =>
      exact ⟨err, by simp [AddUser, hctx, hv], Validate_isValidation u err hv⟩
  · intro h1 h2 h3 hstored
    have hv := (Validate_eq_none_iff u).mpr ⟨h1, h2, h3⟩
    cases hs : m.users u.ID with
    | none => exact absurd hs hstored
    | some v => exact ⟨by simp [AddUser, hctx, hv, hs], rfl⟩
  · intro h1 h2 h3 hfree
    have hv := (Validate_eq_none_iff u).mpr ⟨h1, h2, h3⟩
    have ha : AddUser m u =
        ({ m with users := Function.update m.users u.ID (some u) }, none) := by
      simp [AddUser, hctx, hv, hfree]
    rw [ha]
    refine ⟨rfl, by simp, ?_, rfl⟩
    intro id hne
    simp [Function.update_noteq hne]
  · intro err herr
    unfold AddUser at herr ⊢
    rw [hctx] at herr ⊢
    cases hv : Validate u with
    | some e => simp [hv]
    | none =>
      cases hs : m.users u.ID with
      | some v => simp [hv, hs]
      | none => simp [hv, hs] at herr

/-- C20 at concrete users: a bad email is a validation error, a second user with
the ID of `ann` is a duplicate and `ann` stays stored, and `ann` is added to a
new manager. -/
theorem C20_witness_three_users :
    withAnn.ctx = none ∧
      (∃ err, AddUser withAnn badEmail = (withAnn, some err) ∧ err.isValidation = true) ∧
      AddUser withAnn impostor = (withAnn, some (.alreadyExists "u1")) ∧
      (AddUser withAnn impostor).1.users "u1" = some ann ∧
      (AddUser NewUserManager ann).2 = none ∧
      (AddUser NewUserManager ann).1.users "u1" = some ann := by
  obtain ⟨h1, h2, _, _⟩ := C20_addUser_outcomes withAnn badEmail rfl
  obtain ⟨_, h3, _, _⟩ := C20_addUser_outcomes withAnn impostor rfl
  obtain ⟨_, _, h4, _⟩ := C20_addUser_outcomes NewUserManager ann rfl
  have h5 := (h3 (by decide) (by decide) (by decide) (by decide)).1
  have h6 := h4 (by decide) (by decide) (by decide) rfl
  refine ⟨rfl, h1 (Or.inr (Or.inr (by decide))), h5, ?_, h6.1, h6.2.1⟩
  rw [h5]
  rfl

/-- C21: `GetUser` returns the stored user, unchanged, for a stored ID and the
not-found error otherwise; after an `AddUser` that returned nil, `GetUser` of
the ID of the user returns that user; `RemoveUser` of a stored ID returns nil,
after which `GetUser` of it is not-found and every other entry is as before;
`RemoveUser` of an ID that is not stored returns the not-found error and leaves
the manager as it was. -/
theorem C21_get_add_remove (m : UserManager) (u : User) (id : String) :
    (∀ v, m.users id = some v → GetUser m id = (v, none)) ∧
      (m.users id = none → (GetUser m id).2 = some (.notFound id)) ∧
      ((AddUser m u).2 = none → GetUser (AddUser m u).1 u.ID = (u, none)) ∧
      (m.users id ≠ none →
        (RemoveUser m id).2 = none ∧
        (GetUser (RemoveUser m id).1 id).2 = some (.notFound id) ∧
        (∀ id1, id1 ≠ id → (RemoveUser m id).1.users id1 = m.users id1) ∧
        (RemoveUser m id).1.ctx = m.ctx) ∧
      (m.users id = none → RemoveUser m id = (m, some (.notFound id))) := by
  refine ⟨?_, ?_, ?_, ?_, ?_⟩
  · intro v hv
    simp [GetUser, hv]
  · intro hn
    simp [GetUser, hn]
  · intro hok
    unfold AddUser at hok ⊢
    cases hc : m.ctx with
    | some e => simp [hc] at hok
    | none =>
      cases hv : Validate u with
      | some err => simp [hc, hv] at hok
      | none =>
        cases hs : m.users u.ID with
        | some w => simp [hc, hv, hs] at hok
        | none => simp [hv, hs, GetUser]
  · intro hs
    cases hv : m.users id with
    | none => exact absurd hv hs
    | some v =>
      refine ⟨by simp [RemoveUser, hv], by simp [RemoveUser, hv, GetUser], ?_,
        by simp [RemoveUser, hv]⟩
      intro id1 hne
      simp [RemoveUser, hv, Function.update_noteq hne]
  · intro hn
    simp [RemoveUser, hn]

/-- C21 at concrete managers: `ann` is found after being added and gone after being
removed, and removing an unknown ID is an error. -/
theorem C21_witness_ann :
    GetUser (AddUser NewUserManager ann).1 "u1" = (ann, none) ∧
      (RemoveUser withAnn "u1").2 = none ∧
      (GetUser (RemoveUser withAnn "u1").1 "u1").2 = some (.notFound "u1") ∧
      RemoveUser withAnn "u9" = (withAnn, some (.notFound "u9")) := by
  obtain ⟨_, _, h3, _, _⟩ := C21_get_add_remove NewUserManager ann "u1"
  obtain ⟨_, _, _, h4, _⟩ := C21_get_add_remove withAnn ann "u1"
  obtain ⟨_, _, _, _, h5⟩ := C21_get_add_remove withAnn ann "u9"
  have h6 := h4 (by decide)
  exact ⟨h3 (by decide), h6.1, h6.2.1, h5 rfl⟩

end user

namespace security

/-! ## Password rules -/

theorem utf8ByteSize_go_ge (cs : List Char) : cs.length ≤ String.utf8ByteSize.go cs := by
  induction cs with
  | nil => simp [String.utf8ByteSize.go]
  | cons c cs ih =>
    have := Char.utf8Size_pos c
    simp only [String.utf8ByteSize.go, List.length_cons]
    omega

theorem utf8ByteSize_go_ascii (cs : List Char) (h : ∀ c ∈ cs, c.val ≤ 127) :
    String.utf8ByteSize.go cs = cs.length := by
  induction cs with
  | nil => simp [String.utf8ByteSize.go]
  | cons c cs ih =>
    have hc : c.utf8Size = 1 := by
      have h1 : c.val ≤ 127 := h c (List.mem_cons_self _ _)
      simp [Char.utf8Size, h1]
    simp only [String.utf8ByteSize.go, List.length_cons, hc]
    rw [ih (fun d hd => h d (List.mem_cons_of_mem _ hd))]

/-- What the code computes: `ValidatePassword` returns nil exactly when the password
is at least 6 bytes long in UTF-8 and a character of `a-z`, `A-Z` and a character
of `0-9` occur in it.  A password has at least as many bytes as characters, and
exactly as many when it is ASCII. -/
theorem ValidatePassword_nil_iff (p : String) :
    (ValidatePassword p = none ↔
        6 ≤ p.utf8ByteSize ∧ (∃ c ∈ p.toList, c.isAlpha = true) ∧
          (∃ c ∈ p.toList, c.isDigit = true)) ∧
      p.length ≤ p.utf8ByteSize ∧
      ((∀ c ∈ p.toList, c.val ≤ 127) → p.utf8ByteSize = p.length) := by
  refine ⟨?_, utf8ByteSize_go_ge p.data, fun h => utf8ByteSize_go_ascii p.data h⟩
  unfold ValidatePassword
  by_cases hlen : p.utf8ByteSize < 6
  · simp [hlen]
  · by_cases hl : p.toList.any Char.isAlpha = true
    · by_cases hn : p.toList.any Char.isDigit = true
      · have hl2 := List.any_eq_true.mp hl
        have hn2 := List.any_eq_true.mp hn
        simp only [hlen, if_false, hl, hn]
        simp only [Bool.not_true, Bool.or_self, Bool.false_eq_true, if_false, true_iff]
        exact ⟨by omega, hl2, hn2⟩
      · simp only [hlen, if_false, hl, hn]
        simp only [Bool.not_true, Bool.false_or, Bool.not_eq_true] at hn ⊢
        simp only [hn, Bool.not_false, if_true]
        constructor
        · intro h; cases h
        · rintro ⟨_, _, c, hc, hd⟩
          have := List.any_eq_true.mpr ⟨c, hc, hd⟩
          rw [hn] at this
          cases this
    · simp only [Bool.not_eq_true] at hl
      simp only [hlen, if_false, hl]
      simp only [Bool.not_false, Bool.true_or, if_true]
      constructor
      · intro h; cases h
      · rintro ⟨_, ⟨c, hc, hd⟩, _⟩
        have := List.any_eq_true.mpr ⟨c, hc, hd⟩
        rw [hl] at this
        cases this

/-- C22, the code at a failing input: the password `é1aé` has four characters, a
letter and a number among them, and `ValidatePassword` returns nil for it,
because `len` counts its six bytes.  On every password of ASCII characters the
function does what the claim says: it returns nil exactly when the password has
at least 6 characters, a letter and a digit. -/
theorem C22_four_characters_accepted :
    ("é1aé" : String).length = 4 ∧ ("é1aé" : String).utf8ByteSize = 6 ∧
      ValidatePassword "é1aé" = none ∧
      ∀ p : String, (∀ c ∈ p.toList, c.val ≤ 127) →
        (ValidatePassword p = none ↔
          6 ≤ p.length ∧ (∃ c ∈ p.toList, c.isAlpha = true) ∧
            (∃ c ∈ p.toList, c.isDigit = true)) := by
  refine ⟨by decide, by decide, by decide, ?_⟩
  intro p hp
  obtain ⟨h1, _, h3⟩ := ValidatePassword_nil_iff p
  rw [h1, h3 hp]

/-- C22 at concrete ASCII passwords: `abc123` passes, `abcdef` has no digit, `ab1` is
too short. -/
theorem C22_witness_three_passwords :
    ValidatePassword "abc123" = none ∧ ValidatePassword "abcdef" ≠ none ∧
      ValidatePassword "ab1" ≠ none := by
  have h := C22_four_characters_accepted.2.2.2
  have h1 := h "abc123" (by decide)
  have h2 := h "abcdef" (by decide)
  have h3 := h "ab1" (by decide)
  refine ⟨h1.mpr (by decide), ?_, ?_⟩
  · intro hn
    have := (h2.mp hn).2.2
    revert this
    decide
  · intro hn
    have := (h3.mp hn).1
    revert this
    decide

/-- C23, the code at a failing input: whatever else the Unicode tables say, `é` is a
letter and `1` is a number, so for the six-character password `ééééé1` the
loop of `ValidatePasswordWithoutRegexp` finds a letter and a number and the
function returns nil, while `ValidatePassword` finds no match for `[a-zA-Z]`
and returns the letter-and-number error. -/
theorem C23_implementations_disagree (S : golang.Std) (hl : S.IsLetter 'é' = true)
    (hn : S.IsNumber '1' = true) (hnl : S.IsLetter '1' = false) :
    ("ééééé1" : String).length = 6 ∧
      ValidatePassword "ééééé1" = some .needsLetterAndNumber ∧
      ValidatePasswordWithoutRegexp S "ééééé1" = none := by
  refine ⟨by decide, by decide, ?_⟩
  have hsize : ¬ ("ééééé1" : String).utf8ByteSize < 6 := by decide
  have hlist : ("ééééé1" : String).toList = ['é', 'é', 'é', 'é', 'é', '1'] := by decide
  unfold ValidatePasswordWithoutRegexp
  rw [if_neg hsize, hlist]
  simp [scanLetterNumber, hl, hn, hnl]

/-- C23 with tables that know `é` as a letter next to the ASCII classes. -/
theorem C23_witness_e_acute :
    golang.asciiAndEAcute.IsLetter 'é' = true ∧ golang.asciiAndEAcute.IsNumber '1' = true ∧
      ValidatePassword "ééééé1" = some .needsLetterAndNumber ∧
      ValidatePasswordWithoutRegexp golang.asciiAndEAcute "ééééé1" = none := by
  obtain ⟨_, h2, h3⟩ :=
    C23_implementations_disagree golang.asciiAndEAcute (by decide) (by decide) (by decide)
  exact ⟨by decide, by decide, h2, h3⟩

theorem isDigit_not_isAlpha (c : Char) (h : c.isDigit = true) : c.isAlpha = false := by
  simp only [Char.isDigit, Bool.and_eq_true, decide_eq_true_eq, ge_iff_le] at h
  obtain ⟨_, h2⟩ := h
  have hu : c.isUpper = false := by
    simp only [Char.isUpper, Bool.and_eq_false_imp, decide_eq_true_eq, ge_iff_le]
    intro h3
    exact absurd (UInt32.le_trans h3 h2) (by decide)
  have hl : c.isLower = false := by
    simp only [Char.isLower, Bool.and_eq_false_imp, decide_eq_true_eq, ge_iff_le]
    intro h3
    exact absurd (UInt32.le_trans h3 h2) (by decide)
  simp [Char.isAlpha, hu, hl]

theorem scanLetterNumber_ascii (S : golang.Std) (cs : List Char)
    (h : ∀ c ∈ cs, S.IsLetter c = c.isAlpha ∧ S.IsNumber c = c.isDigit) :
    ∀ l n, scanLetterNumber S cs (l, n) =
      (l || cs.any Char.isAlpha, n || cs.any Char.isDigit) := by
  induction cs with
  | nil => intro l n; simp [scanLetterNumber]
  | cons c cs ih =>
    intro l n
    have hc := h c (List.mem_cons_self _ _)
    have ih2 := ih (fun d hd => h d (List.mem_cons_of_mem _ hd))
    simp only [scanLetterNumber, hc.1, hc.2, List.any_cons]
    cases ha : c.isAlpha with
    | true =>
      have hd : c.isDigit = false := by
        cases hd : c.isDigit with
        | false => rfl
        | true => rw [isDigit_not_isAlpha c hd] at ha; cases ha
      simp [ih2, hd]
    | false =>
      cases hd : c.isDigit with
      | true => simp [ih2]
      | false => simp [ih2]

/-- Where the Unicode tables class every character of a password as the ASCII
classes do, which they do for every ASCII character, the two implementations
return the same value. -/
theorem implementations_agree_on_ascii (S : golang.Std) (p : String)
    (h : ∀ c ∈ p.toList, S.IsLetter c = c.isAlpha ∧ S.IsNumber c = c.isDigit) :
    ValidatePasswordWithoutRegexp S p = ValidatePassword p := by
  unfold ValidatePasswordWithoutRegexp ValidatePassword
  simp only [scanLetterNumber_ascii S p.toList h, Bool.false_or]

end security

namespace repository

/-! ## The clauses of the post search query -/

/-- C24: whatever the base query and the filters, the built query has a row limit,
which is `filters.Limit` when that is positive and 50 otherwise; its offset is
`filters.Offset` when that is positive and is otherwise left as the base query
has it; and it gains one ordering clause, `column direction`.  The column is
`filters.OrderBy` when that is not empty and, lower-cased, is one of `title`,
`created_at`, `updated_at`, and is `created_at` otherwise.  The direction is
`ASC` exactly when the upper-cased `filters.OrderDir` is `ASC`, and `DESC`
otherwise.  With the zero filters on the base query of `SearchPosts` the
ordering is `created_at DESC`. -/
theorem C24_dynamic_query_clauses (S : golang.Std) (base : SelectBuilder)
    (f : SearchFilters) :
    (0 < f.Limit → ∃ n : Nat, (buildDynamicPostQuery S base f).limit = some n ∧
        (n : Int) = f.Limit) ∧
      (f.Limit ≤ 0 → (buildDynamicPostQuery S base f).limit = some 50) ∧
      (0 < f.Offset → ∃ n : Nat, (buildDynamicPostQuery S base f).offset = some n ∧
        (n : Int) = f.Offset) ∧
      (f.Offset ≤ 0 → (buildDynamicPostQuery S base f).offset = base.offset) ∧
      (buildDynamicPostQuery S base f).orderBys =
        base.orderBys ++ [orderColumn S f ++ " " ++ orderDirection S f] ∧
      (orderColumn S f = "created_at" ∨
        (orderColumn S f = f.OrderBy ∧
          S.ToLower (orderColumn S f) ∈ ["title", "created_at", "updated_at"])) ∧
      (f.OrderBy = "" ∨ S.ToLower f.OrderBy ∉ ["title", "created_at", "updated_at"] →
        orderColumn S f = "created_at") ∧
      (orderDirection S f = "ASC" ↔ S.ToUpper f.OrderDir = "ASC") ∧
      (orderDirection S f = "ASC" ∨ orderDirection S f = "DESC") ∧
      (S.ToUpper "" ≠ "ASC" →
        (buildDynamicPostQuery S postsBase noFilters).orderBys = ["created_at DESC"]) := by
  have hord : ∀ (q : SelectBuilder) (g : SearchFilters),
      (buildDynamicPostQuery S q g).orderBys =
        q.orderBys ++ [orderColumn S g ++ " " ++ orderDirection S g] := by
    intro q g
    simp only [buildDynamicPostQuery]
    cases g.UserID <;> cases g.Published <;> split_ifs <;> rfl
  refine ⟨?_, ?_, ?_, ?_, hord base f, ?_, ?_, ?_, ?_, ?_⟩
  · intro h
    refine ⟨f.Limit.toNat, ?_, Int.toNat_of_nonneg (le_of_lt h)⟩
    simp only [buildDynamicPostQuery, gt_iff_lt, h, if_true]
    split_ifs <;> rfl
  · intro h
    have h2 : ¬ 0 < f.Limit := not_lt.mpr h
    simp only [buildDynamicPostQuery, gt_iff_lt, h2, if_false]
    split_ifs <;> rfl
  · intro h
    refine ⟨f.Offset.toNat, ?_, Int.toNat_of_nonneg (le_of_lt h)⟩
    simp only [buildDynamicPostQuery, gt_iff_lt, h, if_true]
    rfl
  · intro h
    have h2 : ¬ 0 < f.Offset := not_lt.mpr h
    simp only [buildDynamicPostQuery, gt_iff_lt, h2, if_false]
    cases f.UserID <;> cases f.Published <;> split_ifs <;> rfl
  · unfold orderColumn validOrderBy
    split_ifs with h
    · exact Or.inr ⟨rfl, h.2⟩
    · exact Or.inl rfl
  · intro h
    unfold orderColumn validOrderBy
    split_ifs with h2
    · rcases h with h | h
      · exact absurd h h2.1
      · exact absurd h2.2 h
    · rfl
  · unfold orderDirection
    split_ifs with h
    · exact ⟨fun _ => h, fun _ => rfl⟩
    · exact ⟨fun e => absurd e (by decide), fun e => absurd e h⟩
  · unfold orderDirection
    split_ifs
    · exact Or.inl rfl
    · exact Or.inr rfl
  · intro h
    have hd : orderDirection S noFilters = "DESC" := by
      show (if S.ToUpper "" = "ASC" then "ASC" else "DESC") = "DESC"
      rw [if_neg h]
    have hc : orderColumn S noFilters = "created_at" := by
      show (if ("" : String) ≠ "" ∧ S.ToLower "" ∈ validOrderBy then "" else "created_at")
        = "created_at"
      rw [if_neg (fun h2 => h2.1 rfl)]
    rw [hord postsBase noFilters, hd, hc]
    decide

/-- C24 at the filters of the tests: no filters, limit 1 with offset 1, and ordering
by title ascending spelled in mixed case. -/
theorem C24_witness_test_filters :
    buildDynamicPostQuery golang.ascii postsBase noFilters =
        { wheres := [], limit := some 50, offset := none, orderBys := ["created_at DESC"] } ∧
      buildDynamicPostQuery golang.ascii postsBase pageTwo =
        { wheres := [], limit := some 1, offset := some 1, orderBys := ["created_at DESC"] } ∧
      buildDynamicPostQuery golang.ascii postsBase byTitle =
        { wheres := [], limit := some 50, offset := none, orderBys := ["Title ASC"] } ∧
      (buildDynamicPostQuery golang.ascii postsBase noFilters).orderBys =
        ["created_at DESC"] := by
  obtain ⟨_, _, _, _, _, _, _, _, _, h⟩ :=
    C24_dynamic_query_clauses golang.ascii postsBase noFilters
  exact ⟨by decide, by decide, by decide, h (by decide)⟩

end repository

namespace userdomain

/-! ## Validity of the user entity -/

theorem Validate_passes_iff (S : golang.Std) (u : User) :
    Validate S u = none ↔
      ValidateEmail u.Email = none ∧ ValidateName S u.Name = none ∧
        ValidatePassword S u.Password = none := by
  unfold Validate
  cases ValidateEmail u.Email <;> cases ValidateName S u.Name <;>
    cases ValidatePassword S u.Password <;> simp

/-- C28: a user returned by `NewUser` passes `Validate`, its email is the input
trimmed and lower-cased and its name is the input trimmed, and `NewUser` does
return a user whenever those normalised fields and the password pass
`Validate`; for a user that passes `Validate`, an `UpdateName` or `UpdateEmail`
that returns nil leaves a user that passes `Validate`; an `UpdateName` or
`UpdateEmail` that returns an error leaves the user exactly as it was. -/
theorem C28_validity_is_kept (S : golang.Std) (now : Int) (u : User)
    (email name password : String) :
    (∀ v, NewUser S now email name password = .ok v →
        Validate S v = none ∧ v.Email = S.ToLower (S.TrimSpace email) ∧
        v.Name = S.TrimSpace name ∧ v.Password = password ∧
        v.CreatedAt = now ∧ v.UpdatedAt = now) ∧
      (ValidateEmail (S.ToLower (S.TrimSpace email)) = none →
        ValidateName S (S.TrimSpace name) = none → ValidatePassword S password = none →
        ∃ v, NewUser S now email name password = .ok v) ∧
      (Validate S u = none → (UpdateName S now u name).2 = none →
        Validate S (UpdateName S now u name).1 = none ∧
        (UpdateName S now u name).1.Name = S.TrimSpace name) ∧
      (Validate S u = none → (UpdateEmail S now u email).2 = none →
        Validate S (UpdateEmail S now u email).1 = none ∧
        (UpdateEmail S now u email).1.Email = S.ToLower (S.TrimSpace email)) ∧
      (∀ err, (UpdateName S now u name).2 = some err → (UpdateName S now u name).1 = u) ∧
      (∀ err, (UpdateEmail S now u email).2 = some err →
        (UpdateEmail S now u email).1 = u) := by
  refine ⟨?_, ?_, ?_, ?_, ?_, ?_⟩
  · intro v hv
    unfold NewUser at hv
    simp only at hv
    split at hv
    · cases hv
    · rename_i hval
      simp only [Except.ok.injEq] at hv
      subst hv
      rw [Validate_passes_iff] at hval ⊢
      exact ⟨hval, rfl, rfl, rfl, rfl, rfl⟩
  · intro h1 h2 h3
    have hval := (Validate_passes_iff S
      ⟨0, S.ToLower (S.TrimSpace email), S.TrimSpace name, password, 0, 0⟩).mpr ⟨h1, h2, h3⟩
    exact ⟨⟨0, S.ToLower (S.TrimSpace email), S.TrimSpace name, password, now, now⟩,
      by simp only [NewUser, hval]⟩
  · intro hval hok
    rw [Validate_passes_iff] at hval
    unfold UpdateName at hok ⊢
    simp only at hok ⊢
    cases hn : ValidateName S (S.TrimSpace name) with
    | some err => rw [hn] at hok; cases hok
    | none =>
      simp only
      exact ⟨(Validate_passes_iff S _).mpr ⟨hval.1, hn, hval.2.2⟩, trivial⟩
  · intro hval hok
    rw [Validate_passes_iff] at hval
    unfold UpdateEmail at hok ⊢
    simp only at hok ⊢
    cases he : ValidateEmail (S.ToLower (S.TrimSpace email)) with
    | some err => rw [he] at hok; cases hok
    | none =>
      simp only
      exact ⟨(Validate_passes_iff S _).mpr ⟨he, hval.2.1, hval.2.2⟩, trivial⟩
  · intro err herr
    unfold UpdateName at herr ⊢
    simp only at herr ⊢
    cases hn : ValidateName S (S.TrimSpace name) with
    | some e => rfl
    | none => rw [hn] at herr; cases herr
  · intro err herr
    unfold UpdateEmail at herr ⊢
    simp only at herr ⊢
    cases he : ValidateEmail (S.ToLower (S.TrimSpace email)) with
    | some e => rfl
    | none => rw [he] at herr; cases herr

/-- C28 on ASCII input: `NewUser` normalises the email and the name, a one-letter
name is refused by `UpdateName` and the user keeps its name. -/
theorem C28_witness_ann_lee :
    NewUser golang.ascii 5 " Ann@Example.COM " " Ann Lee " "Passw0rdX" = .ok annLee ∧
      Validate golang.ascii annLee = none ∧
      (UpdateName golang.ascii 9 annLee " A ").2 = some .nameTooShort ∧
      (UpdateName golang.ascii 9 annLee " A ").1 = annLee := by
  obtain ⟨_, _, _, _, h5, _⟩ :=
    C28_validity_is_kept golang.ascii 9 annLee " Ann@Example.COM " " A " "Passw0rdX"
  obtain ⟨h6, _⟩ :=
    C28_validity_is_kept golang.ascii 5 annLee " Ann@Example.COM " " Ann Lee " "Passw0rdX"
  have hnew : NewUser golang.ascii 5 " Ann@Example.COM " " Ann Lee " "Passw0rdX" =
      .ok annLee := rfl
  have herr : (UpdateName golang.ascii 9 annLee " A ").2 = some .nameTooShort := by decide
  exact ⟨hnew, (h6 _ hnew).1, herr, h5 .nameTooShort herr⟩

end userdomain

namespace Chatcore

/-! ## Capacity, payload and pending messages -/

theorem trySend_length (chans c1 : Nat → Chan) (h : Handle) (msg : Message)
    (hs : trySend chans h msg = .ok c1) (r : Nat) :
    (c1 r).buf.length ≤ (chans r).buf.length + (if h = some r then 1 else 0) ∧
      ((chans r).buf.length ≤ (chans r).cap → (c1 r).buf.length ≤ (c1 r).cap) := by
  by_cases hr : h = some r
  · subst hr
    simp only [trySend] at hs
    split_ifs at hs with hc hl
    · simp only [Except.ok.injEq] at hs
      subst hs
      simp only [Function.update_same, List.length_append, List.length_singleton, if_true]
      exact ⟨le_refl _, fun _ => hl⟩
    · simp only [Except.ok.injEq] at hs
      subst hs
      exact ⟨Nat.le_add_right _ _, fun h0 => h0⟩
  · rw [trySend_other chans c1 h msg hs r hr, if_neg hr]
    exact ⟨le_refl _, fun h0 => h0⟩

theorem broadcastLoop_length (users : String → Option Handle) (msg : Message)
    (order : List String) (r : Nat) :
    ∀ chans c1, broadcastLoop users msg order chans = .ok c1 →
      (c1 r).buf.length ≤ (chans r).buf.length +
          (order.filter (fun id => decide (users id = some (some r)))).length ∧
        ((chans r).buf.length ≤ (chans r).cap → (c1 r).buf.length ≤ (c1 r).cap) := by
  induction order with
  | nil =>
    intro chans c1 hs
    simp only [broadcastLoop, Except.ok.injEq] at hs
    subst hs
    exact ⟨by simp, fun h => h⟩
  | cons id rest ih =>
    intro chans c1 hs
    obtain ⟨c0, ht, hl⟩ := broadcastLoop_cons_ok users msg id rest chans c1 hs
    obtain ⟨h1, h2⟩ := trySend_length chans c0 (users id).join msg ht r
    obtain ⟨h3, h4⟩ := ih c0 c1 hl
    refine ⟨?_, fun h0 => h4 (h2 h0)⟩
    by_cases hu : users id = some (some r)
    · have hj : (users id).join = some r := Option.join_eq_some.mpr hu
      rw [if_pos hj] at h1
      simp only [List.filter_cons, hu, decide_True, if_true, List.length_cons]
      omega
    · have hj : ¬ (users id).join = some r := fun e => hu (Option.join_eq_some.mp e)
      rw [if_neg hj] at h1
      simp only [List.filter_cons, hu, decide_False, Bool.false_eq_true, if_false]
      omega

theorem filter_length_le_one (p : String → Bool) (l : List String) (hn : l.Nodup)
    (hp : ∀ x y, p x = true → p y = true → x = y) : (l.filter p).length ≤ 1 := by
  have hnf : (l.filter p).Nodup := hn.filter p
  match hf : l.filter p with
  | [] => simp
  | [_] => simp
  | x :: y :: t =>
    rw [hf] at hnf
    have hx : p x = true := (List.mem_filter.mp (by rw [hf]; simp)).2
    have hy : p y = true := (List.mem_filter.mp (by rw [hf]; simp)).2
    have hxy := hp x y hx hy
    rw [hxy] at hnf
    simp at hnf

theorem dispatch_broadcast_inv (b b1 : Broker) (msg : Message) (now : Int)
    (order : List String) (hb : msg.Broadcast = true)
    (hd : dispatch b msg now order = .ok b1) :
    broadcastLoop b.users (stamp msg now) order b.chans = .ok b1.chans := by
  simp only [dispatch, stamp_Broadcast, hb, if_true, broadcastMessage] at hd
  cases hl : broadcastLoop b.users (stamp msg now) order b.chans with
  | error p => rw [hl] at hd; cases hd
  | ok c1 =>
    rw [hl] at hd
    simp only [Except.ok.injEq] at hd
    subst hd
    rfl

theorem dispatch_unicast_inv (b b1 : Broker) (msg : Message) (now : Int)
    (order : List String) (hb : msg.Broadcast = false)
    (hd : dispatch b msg now order = .ok b1) :
    trySend b.chans (b.users msg.Recipient).join (stamp msg now) = .ok b1.chans := by
  rw [dispatch_unicast_eq b msg now order hb] at hd
  unfold sendPrivateMessage at hd
  rw [stamp_Recipient] at hd
  cases hu : b.users msg.Recipient with
  | none =>
    simp only [hu, Except.ok.injEq] at hd
    subst hd
    rfl
  | some h =>
    simp only [hu] at hd
    cases hs : trySend b.chans h (stamp msg now) with
    | error p => rw [hs] at hd; cases hd
    | ok c1 =>
      rw [hs] at hd
      simp only [Except.ok.injEq] at hd
      subst hd
      exact hs

/-- C25 fails as stated: `"a"` and `"b"` are registered with the same mailbox, which
is empty and has room for two; one broadcast step appends the message once for
each of them, so the mailbox grows by two. -/
theorem C25_counterexample_shared_mailbox :
    hello.Broadcast = true ∧ sharedAB.users "a" = some (some 0) ∧
      sharedAB.users "b" = some (some 0) ∧ (sharedAB.chans 0).buf.length = 0 ∧
      (sharedAB.chans 0).cap = 2 ∧
      ∃ b1, dispatch sharedAB hello 7 ["a", "b"] = .ok b1 ∧ (b1.chans 0).buf.length = 2 :=
  ⟨rfl, rfl, rfl, rfl, rfl, _, rfl, rfl⟩

/-- C25 (as amended): after a dispatch step that completes, every mailbox has the
capacity it had, holds its previous messages in their order followed by copies
of the dispatched message, and holds at most its capacity if it did before.  A
unicast step makes a mailbox grow by at most one; a broadcast step by at most
the number of identities registered with that mailbox, hence by at most one
when each identity is visited once and no two identities share the mailbox.
The step completes when no registered mailbox is closed. -/
theorem C25_capacity_is_kept (b : Broker) (msg : Message) (now : Int) (order : List String) :
    (∀ b1, dispatch b msg now order = .ok b1 → ∀ r,
        (b1.chans r).cap = (b.chans r).cap ∧
        (∃ k, (b1.chans r).buf = (b.chans r).buf ++ List.replicate k (stamp msg now)) ∧
        ((b.chans r).buf.length ≤ (b.chans r).cap →
          (b1.chans r).buf.length ≤ (b1.chans r).cap) ∧
        (msg.Broadcast = false → (b1.chans r).buf.length ≤ (b.chans r).buf.length + 1) ∧
        (msg.Broadcast = true → (b1.chans r).buf.length ≤ (b.chans r).buf.length +
          (order.filter (fun id => decide (b.users id = some (some r)))).length) ∧
        (order.Nodup →
          (∀ id1 id2, b.users id1 = some (some r) → b.users id2 = some (some r) → id1 = id2) →
          (b1.chans r).buf.length ≤ (b.chans r).buf.length + 1)) ∧
      (NoClosedMailbox b → ∃ b1, dispatch b msg now order = .ok b1) := by
  refine ⟨?_, dispatch_ok_of_noClosed b msg now order⟩
  intro b1 hd r
  obtain ⟨_, _, _, _, f5⟩ := dispatch_frame b b1 msg now order hd
  have hone : msg.Broadcast = false →
      (b1.chans r).buf.length ≤ (b.chans r).buf.length + 1 ∧
        ((b.chans r).buf.length ≤ (b.chans r).cap →
          (b1.chans r).buf.length ≤ (b1.chans r).cap) := by
    intro hb
    obtain ⟨h1, h2⟩ := trySend_length _ _ _ _ (dispatch_unicast_inv b b1 msg now order hb hd) r
    refine ⟨?_, h2⟩
    split_ifs at h1 <;> omega
  have hmany : msg.Broadcast = true →
      (b1.chans r).buf.length ≤ (b.chans r).buf.length +
          (order.filter (fun id => decide (b.users id = some (some r)))).length ∧
        ((b.chans r).buf.length ≤ (b.chans r).cap →
          (b1.chans r).buf.length ≤ (b1.chans r).cap) := by
    intro hb
    exact broadcastLoop_length b.users _ order r _ _
      (dispatch_broadcast_inv b b1 msg now order hb hd)
  refine ⟨(f5 r).1, (f5 r).2.2, ?_, fun hb => (hone hb).1, fun hb => (hmany hb).1, ?_⟩
  · cases hb : msg.Broadcast with
    | true => exact (hmany hb).2
    | false => exact (hone hb).2
  · intro hnd hsole
    cases hb : msg.Broadcast with
    | false => exact (hone hb).1
    | true =>
      have h1 := (hmany hb).1
      have h2 := filter_length_le_one (fun id => decide (b.users id = some (some r))) order hnd
        (fun x y hx hy => hsole x y (by simpa using hx) (by simpa using hy))
      omega

/-- C25 at a concrete registry: the full mailbox of `"a"` keeps its one message and
stays within its capacity of one. -/
theorem C25_witness_full_mailbox :
    ∃ b1, dispatch fullA hello 7 ["a", "b"] = .ok b1 ∧
      (b1.chans 0).buf.length ≤ (b1.chans 0).cap ∧
      (b1.chans 1).buf.length ≤ (fullA.chans 1).buf.length + 1 := by
  obtain ⟨h1, _⟩ := C25_capacity_is_kept fullA hello 7 ["a", "b"]
  have hev : ∃ b1, dispatch fullA hello 7 ["a", "b"] = .ok b1 := ⟨_, rfl⟩
  obtain ⟨b1, hd⟩ := hev
  obtain ⟨_, _, h3, _, _, _⟩ := h1 b1 hd 0
  obtain ⟨_, _, _, _, _, h6⟩ := h1 b1 hd 1
  refine ⟨b1, hd, h3 (by decide), h6 (by decide) ?_⟩
  intro id1 id2 e1 e2
  have hb : ∀ id, fullA.users id = some (some 1) → id = "b" := by
    intro id e
    simp only [fullA, usersAB] at e
    by_cases ha : id = "a"
    · simp [ha] at e
    · by_cases hb : id = "b"
      · exact hb
      · simp [ha, hb] at e
  rw [hb id1 e1, hb id2 e2]

/-- C26: a dispatch step that completes leaves the registry as it was, and what it
appends to any mailbox is copies of one message, which has the sender,
recipient, content and broadcast flag of the message taken from the queue and
also its timestamp unless that was 0, in which case the timestamp is the clock
reading; the same holds for a pass of `Run` that handles a message.  The step
completes when no registered mailbox is closed. -/
theorem C26_dispatch_keeps_registry_and_payload (b : Broker) (msg : Message) (now : Int)
    (order : List String) :
    (∀ b1, dispatch b msg now order = .ok b1 →
        b1.users = b.users ∧
        ∀ r, ∃ k, (b1.chans r).buf = (b.chans r).buf ++ List.replicate k (stamp msg now)) ∧
      ((stamp msg now).Sender = msg.Sender ∧ (stamp msg now).Recipient = msg.Recipient ∧
        (stamp msg now).Content = msg.Content ∧ (stamp msg now).Broadcast = msg.Broadcast) ∧
      (msg.Timestamp ≠ 0 → stamp msg now = msg) ∧
      (msg.Timestamp = 0 → (stamp msg now).Timestamp = now) ∧
      (∀ pick b1, RunStep b now order pick = .continued b1 → b1.users = b.users) ∧
      (NoClosedMailbox b → ∃ b1, dispatch b msg now order = .ok b1) := by
  refine ⟨?_, ⟨stamp_Sender msg now, stamp_Recipient msg now, stamp_Content msg now,
    stamp_Broadcast msg now⟩, ?_, ?_, ?_, dispatch_ok_of_noClosed b msg now order⟩
  · intro b1 hd
    obtain ⟨_, _, f3, _, f5⟩ := dispatch_frame b b1 msg now order hd
    exact ⟨f3, fun r => (f5 r).2.2⟩
  · intro h
    simp [stamp, h]
  · intro h
    simp [stamp, h]
  · intro pick b1 hs
    obtain ⟨m, rest, _, hd, _⟩ := RunStep_continued b b1 now order pick hs
    exact (dispatch_frame _ b1 m now order hd).2.2.1

/-- C26 at a concrete registry: after the broadcast `"a"` and `"b"` are registered as
before and the copy in the mailbox of `"b"` differs from `hello` in the
timestamp only. -/
theorem C26_witness_hello :
    ∃ b1, dispatch openAB hello 7 ["a", "b"] = .ok b1 ∧ b1.users = openAB.users ∧
      (b1.chans 1).buf = [{ hello with Timestamp := 7 }] := by
  obtain ⟨h1, _⟩ := C26_dispatch_keeps_registry_and_payload openAB hello 7 ["a", "b"]
  have hev : ∃ b1, dispatch openAB hello 7 ["a", "b"] = .ok b1 ∧
      (b1.chans 1).buf = [{ hello with Timestamp := 7 }] := ⟨_, rfl, rfl⟩
  obtain ⟨b1, hd, hbuf⟩ := hev
  exact ⟨b1, hd, (h1 b1 hd).1, hbuf⟩

/-- C27, the code at a failing input: `"a"` is registered with an open mailbox that
holds the unread messages `note` and `note2`.  `UnregisterUser` takes `note`
out of the mailbox, so the receiver can read only `note2`, and the mailbox is
left open, so no end-of-stream follows. -/
theorem C27_unregister_consumes_first_pending :
    twoPendingA.users "a" = some (some 0) ∧ (twoPendingA.chans 0).closed = false ∧
      (twoPendingA.chans 0).buf = [note, note2] ∧
      ∃ b1, UnregisterUser twoPendingA "a" = .ok b1 ∧ (b1.chans 0).buf = [note2] ∧
        (b1.chans 0).closed = false :=
  ⟨rfl, rfl, rfl, _, rfl, rfl, rfl⟩

/-- What `UnregisterUser` does to the mailbox of a registered identity: it removes
the oldest pending message when there is one, and otherwise closes the mailbox
if it is still open. -/
theorem UnregisterUser_mailbox (b : Broker) (id : String) (r : Nat)
    (hu : b.users id = some (some r)) :
    ∃ b1, UnregisterUser b id = .ok b1 ∧
      (∀ p rest, (b.chans r).buf = p :: rest →
        (b1.chans r).buf = rest ∧ (b1.chans r).closed = (b.chans r).closed) ∧
      ((b.chans r).buf = [] → (b1.chans r).buf = [] ∧ (b1.chans r).closed = true) := by
  obtain ⟨b1, h1⟩ := UnregisterUser_ok b id r hu
  refine ⟨b1, h1, ?_, ?_⟩
  · intro p rest hbuf
    simp only [UnregisterUser, hu, closeUnlessReady, hbuf, Except.ok.injEq] at h1
    subst h1
    simp
  · intro hbuf
    simp only [UnregisterUser, hu, closeUnlessReady, hbuf] at h1
    by_cases hc : (b.chans r).closed = true
    · simp only [hc, if_true, Except.ok.injEq] at h1
      subst h1
      exact ⟨hbuf, hc⟩
    · simp only [hc, Bool.false_eq_true, if_false, Except.ok.injEq] at h1
      subst h1
      simp [hbuf]

end Chatcore
